import Mathlib

/-!
Shallow embedding of the support-ticket analysis pipeline
(`src/cache.py`, `src/client.py`, `src/models.py`, `src/orchestrator.py`)
and machine-checked verdicts on the specification claims.

Python strings are modelled as `String` / `List Char`, JSON values as the
`Json` inductive type, the file system as a partial map from path strings
to file contents, and the inference service as a function argument.
Standard-library collaborators (`json.loads`, `json.dumps`, pydantic
validation, `datetime`) are modelled by executable Lean functions that
follow their documented behaviour on the fragments the pipeline uses.
-/

set_option maxHeartbeats 1000000
set_option maxRecDepth 100000

/-- Decimal digit `d` (0-9) as a character. -/
def digitChar (d : Nat) : Char :=
  match d with
  | 0 => '0' | 1 => '1' | 2 => '2' | 3 => '3' | 4 => '4'
  | 5 => '5' | 6 => '6' | 7 => '7' | 8 => '8' | _ => '9'

/-- Numeric value of a decimal digit character. -/
def digitVal (c : Char) : Nat := c.toNat - 48

/-- Fuel-bounded decimal rendering of a natural number, most significant digit first. -/
def natToCharsAux : Nat → Nat → List Char
  | 0, _ => []
  | fuel + 1, n =>
    if n < 10 then [digitChar n]
    else natToCharsAux fuel (n / 10) ++ [digitChar (n % 10)]

/-- Decimal rendering of a natural number. -/
def natToChars (n : Nat) : List Char := natToCharsAux (n + 1) n

/-- Decimal rendering of an integer (model of Python `json` integer output). -/
def intChars (n : Int) : List Char :=
  if n < 0 then '-' :: natToChars n.natAbs else natToChars n.toNat

/-- Python `str.strip` whitespace class. -/
def isWs (c : Char) : Bool :=
  c = ' ' || c = '\t' || c = '\n' || c = '\r' || c = '\x0b' || c = '\x0c'

/-- Python `str.strip`: drop whitespace from both ends. -/
def pyStrip (cs : List Char) : List Char :=
  ((cs.dropWhile isWs).reverse.dropWhile isWs).reverse

/-- Characters of a string literal. -/
def s2c (s : String) : List Char := s.data

/-- The backtick character. -/
def tickChar : Char := Char.ofNat 96

/-- The opening curly-brace character. -/
def lbrace : Char := Char.ofNat 123

/-- The closing curly-brace character. -/
def rbrace : Char := Char.ofNat 125

/-- JSON string-escape for one character (model of the `json.dumps` escaping
the pipeline round-trips through; control characters kept by the paired
decoder below). -/
def escChar (c : Char) : List Char :=
  if c = '"' then ['\\', '"']
  else if c = '\\' then ['\\', '\\']
  else if c = '\n' then ['\\', 'n']
  else if c = '\t' then ['\\', 't']
  else if c = '\r' then ['\\', 'r']
  else [c]

/-- JSON string-escape for a character list. -/
def escapeChars : List Char → List Char
  | [] => []
  | c :: cs => escChar c ++ escapeChars cs

/-- JSON escape-sequence decoding for the character after a backslash. -/
def unescape (c : Char) : Option Char :=
  if c = '"' then some '"'
  else if c = '\\' then some '\\'
  else if c = '/' then some '/'
  else if c = 'n' then some '\n'
  else if c = 't' then some '\t'
  else if c = 'r' then some '\r'
  else if c = 'b' then some (Char.ofNat 8)
  else if c = 'f' then some (Char.ofNat 12)
  else none

/-- Parse the body of a JSON string after the opening quote; returns the
decoded characters and the remaining input after the closing quote. -/
def parseStringBody : List Char → Option (List Char × List Char)
  | [] => none
  | c :: rest =>
    if c = '"' then some ([], rest)
    else if c = '\\' then
      match rest with
      | [] => none
      | e :: rest' =>
        match unescape e with
        | none => none
        | some u => (parseStringBody rest').map (fun p => (u :: p.1, p.2))
    else (parseStringBody rest).map (fun p => (c :: p.1, p.2))

/-- Numeric value of a list of decimal digit characters. -/
def digitsVal (ds : List Char) : Nat := ds.foldl (fun a c => 10 * a + digitVal c) 0

/-- Split a character list into its maximal leading run of decimal digits
and the remainder. -/
def takeDigits : List Char → List Char × List Char
  | [] => ([], [])
  | c :: cs =>
    if c.isDigit then
      let p := takeDigits cs
      (c :: p.1, p.2)
    else ([], c :: cs)

/-- Skip JSON inter-token whitespace. -/
def skipWs (cs : List Char) : List Char := cs.dropWhile isWs

/-- JSON values as produced by Python `json.loads` on the pipeline's data:
`null`, booleans, (integer) numbers, strings, arrays and objects. -/
inductive Json where
  | null : Json
  | bool (b : Bool) : Json
  | num (n : Int) : Json
  | str (s : String) : Json
  | arr (elems : List Json) : Json
  | obj (members : List (String × Json)) : Json

mutual

/-- Fuel-bounded parser for one JSON value (model of `json.loads`).
Returns the value and the unconsumed remainder of the input. -/
def parseVal : Nat → List Char → Option (Json × List Char)
  | 0, _ => none
  | Nat.succ fuel, cs0 =>
    match skipWs cs0 with
    | [] => none
    | c :: rest =>
      if c = 'n' then
        match rest with
        | 'u' :: 'l' :: 'l' :: r => some (Json.null, r)
        | _ => none
      else if c = 't' then
        match rest with
        | 'r' :: 'u' :: 'e' :: r => some (Json.bool true, r)
        | _ => none
      else if c = 'f' then
        match rest with
        | 'a' :: 'l' :: 's' :: 'e' :: r => some (Json.bool false, r)
        | _ => none
      else if c = '"' then
        (parseStringBody rest).map (fun p => (Json.str (String.mk p.1), p.2))
      else if c = '[' then
        if (skipWs rest).head? = some ']' then some (Json.arr [], (skipWs rest).tail)
        else (parseElems fuel rest).map (fun p => (Json.arr p.1, p.2))
      else if c = lbrace then
        if (skipWs rest).head? = some rbrace then some (Json.obj [], (skipWs rest).tail)
        else (parseMembers fuel rest).map (fun p => (Json.obj p.1, p.2))
      else if c = '-' then
        match takeDigits rest with
        | ([], _) => none
        | (d :: ds, r) => some (Json.num (-(Int.ofNat (digitsVal (d :: ds)))), r)
      else if c.isDigit then
        let p := takeDigits (c :: rest)
        some (Json.num (Int.ofNat (digitsVal p.1)), p.2)
      else none

/-- Fuel-bounded parser for the elements of a non-empty JSON array, up to and
including the closing bracket. -/
def parseElems : Nat → List Char → Option (List Json × List Char)
  | 0, _ => none
  | Nat.succ fuel, cs =>
    match parseVal fuel cs with
    | none => none
    | some (v, rest) =>
      match skipWs rest with
      | [] => none
      | c :: r =>
        if c = ',' then (parseElems fuel r).map (fun p => (v :: p.1, p.2))
        else if c = ']' then some ([v], r)
        else none

/-- Fuel-bounded parser for the members of a non-empty JSON object, up to and
including the closing brace. -/
def parseMembers : Nat → List Char → Option (List (String × Json) × List Char)
  | 0, _ => none
  | Nat.succ fuel, cs =>
    match skipWs cs with
    | [] => none
    | c :: r0 =>
      if c = '"' then
        match parseStringBody r0 with
        | none => none
        | some (key, r1) =>
          match skipWs r1 with
          | [] => none
          | c2 :: r2 =>
            if c2 = ':' then
              match parseVal fuel r2 with
              | none => none
              | some (v, r3) =>
                match skipWs r3 with
                | [] => none
                | c3 :: r4 =>
                  if c3 = ',' then
                    (parseMembers fuel r4).map (fun p => ((String.mk key, v) :: p.1, p.2))
                  else if c3 = rbrace then some ([(String.mk key, v)], r4)
                  else none
            else none
      else none

end

/-- Model of `json.loads`: parse the whole (whitespace-trimmed) input as a
single JSON value, rejecting trailing data. -/
def loadsChars (cs : List Char) : Except String Json :=
  match parseVal (cs.length + 1) cs with
  | some (v, rest) =>
    if skipWs rest = [] then Except.ok v else Except.error "Extra data"
  | none => Except.error "Expecting value"

mutual

/-- Canonical compact JSON encoding of a value (model of the canonical
`json` encoding the spec's round-trip property quantifies over). -/
def encodeChars : Json → List Char
  | Json.null => s2c "null"
  | Json.bool true => s2c "true"
  | Json.bool false => s2c "false"
  | Json.num n => intChars n
  | Json.str s => '"' :: (escapeChars s.data ++ ['"'])
  | Json.arr xs => '[' :: (encodeList xs ++ [']'])
  | Json.obj kvs => lbrace :: (encodeMembers kvs ++ [rbrace])

/-- Comma-separated encoding of array elements. -/
def encodeList : List Json → List Char
  | [] => []
  | [x] => encodeChars x
  | x :: y :: xs => encodeChars x ++ (',' :: encodeList (y :: xs))

/-- Comma-separated encoding of object members. -/
def encodeMembers : List (String × Json) → List Char
  | [] => []
  | [(k, v)] => '"' :: (escapeChars k.data ++ ('"' :: (':' :: encodeChars v)))
  | (k, v) :: m :: kvs =>
    ('"' :: (escapeChars k.data ++ ('"' :: (':' :: encodeChars v)))) ++
      (',' :: encodeMembers (m :: kvs))

end

/-- Canonical JSON encoding as a string. -/
def jsonDumps (v : Json) : String := String.mk (encodeChars v)

/-- Python `content.startswith("```")`. -/
def startsTicks (cs : List Char) : Bool :=
  cs.take 3 = [tickChar, tickChar, tickChar]

/-- Find the first occurrence of `"``` "`-style triple backticks; returns the
text before it and the text after it. -/
def findTicks : List Char → Option (List Char × List Char)
  | [] => none
  | c :: cs =>
    if c = tickChar then
      match cs with
      | c1 :: c2 :: rest =>
        if c1 = tickChar && c2 = tickChar then some ([], rest)
        else (findTicks cs).map (fun p => (c :: p.1, p.2))
      | _ => (findTicks cs).map (fun p => (c :: p.1, p.2))
    else (findTicks cs).map (fun p => (c :: p.1, p.2))

/-- Fuel-bounded model of Python `content.split("```")`. -/
def splitTicks : Nat → List Char → List (List Char)
  | 0, cs => [cs]
  | Nat.succ fuel, cs =>
    match findTicks cs with
    | some (pre, post) => pre :: splitTicks fuel post
    | none => [cs]

/-- The code-fence extraction step of `parse_json` (`client.py` lines 71-78):
if the stripped text starts with a triple-backtick fence, work on the text
between the first and second fence, minus a leading `json`/`JSON` tag. -/
def fenceExtract (c0 : List Char) : List Char :=
  if startsTicks c0 then
    match splitTicks (c0.length + 1) c0 with
    | _ :: p1 :: _ =>
      pyStrip (if p1.take 4 = s2c "json" || p1.take 4 = s2c "JSON" then p1.drop 4 else p1)
    | _ => c0
  else c0

/-- Python `str.rfind`: index of the last occurrence of `c`, or `-1`. -/
def rfindIdxAux (c : Char) : List Char → Nat → Int → Int
  | [], _, best => best
  | x :: xs, i, best => rfindIdxAux c xs (i + 1) (if x = c then (i : Int) else best)

/-- Python `content.rfind(c)`. -/
def rfindIdx (c : Char) (cs : List Char) : Int := rfindIdxAux c cs 0 (-1)

/-- Python `content[-n:]`. -/
def lastN (n : Nat) (cs : List Char) : List Char := cs.drop (cs.length - n)

/-- The character-by-character brace-counting fallback of `parse_json`
(`client.py` lines 98-132): track an in-string flag, an escape flag and
brace/bracket depth counters, and at every position where both counters
return to zero on a closing character, try to parse the prefix up to
that position. -/
def scanParseAux (content : List Char) :
    List Char → Nat → Int → Int → Bool → Bool → Option Json
  | [], _, _, _, _, _ => none
  | ch :: rest, i, ob, obk, instr, esc =>
    if esc then scanParseAux content rest (i + 1) ob obk instr false
    else if ch = '\\' && instr then scanParseAux content rest (i + 1) ob obk instr true
    else if ch = '"' && !esc then scanParseAux content rest (i + 1) ob obk (!instr) esc
    else if !instr then
      let ob' := ob + (if ch = lbrace then 1 else 0) - (if ch = rbrace then 1 else 0)
      let obk' := obk + (if ch = '[' then 1 else 0) - (if ch = ']' then 1 else 0)
      if ob' = 0 && obk' = 0 && (ch = rbrace || ch = ']') then
        match loadsChars (content.take (i + 1)) with
        | Except.ok v => some v
        | Except.error _ => scanParseAux content rest (i + 1) ob' obk' instr esc
      else scanParseAux content rest (i + 1) ob' obk' instr esc
    else scanParseAux content rest (i + 1) ob obk instr esc

/-- The parse-attempt cascade of `parse_json` after fence extraction
(`client.py` lines 80-138): direct parse, truncation at the last closing
brace/bracket, brace-counting scan, then a diagnostic error carrying the
last 500 characters of input. -/
def parseCore (content : List Char) : Except String Json :=
  match loadsChars content with
  | Except.ok v => Except.ok v
  | Except.error _ =>
    let lastClose := max (rfindIdx rbrace content) (rfindIdx ']' content)
    let second : Option Json :=
      if 0 < lastClose then
        match loadsChars (content.take (lastClose.toNat + 1)) with
        | Except.ok v => some v
        | Except.error _ => none
      else none
    match second with
    | some v => Except.ok v
    | none =>
      match scanParseAux content content 0 0 0 false false with
      | some v => Except.ok v
      | none =>
        Except.error
          (String.mk (s2c "Could not parse JSON. Last 500 chars: " ++ lastN 500 content))

/-- `parse_json` over character lists: strip, fence-extract, then the
parse-attempt cascade. -/
def parseJsonChars (input : List Char) : Except String Json :=
  parseCore (fenceExtract (pyStrip input))

/-- `parse_json` from `client.py`: recover a JSON value from free-form model
output, handling code fences and truncated output. -/
def parse_json (s : String) : Except String Json := parseJsonChars s.data

/-! ## `client.py` — `APIClient.call` retry loop -/

/-- Observable outcome of one `APIClient.call` invocation: the returned value
or the re-raised exception (`none` when the `for` loop makes zero attempts,
i.e. `max_retries = 0`), the number of request attempts made, and the
backoff sleeps performed between attempts, in order. -/
structure CallResult (ε : Type) where
  result : Option (Except ε String)
  attempts : Nat
  sleeps : List Nat

/-- The `for attempt in range(self.max_retries)` loop of `APIClient.call`
(`client.py` lines 31-64), starting at iteration `attempt`. The external
request (including its `asyncio.wait_for` timeout and the optional
semaphore) is modelled by `service`, giving the response text or the
exception each attempt would raise. After a failed attempt that is not the
last, the loop sleeps `2 ^ attempt` seconds and continues; a failed last
attempt re-raises. -/
def callLoop {ε : Type} (service : Nat → Except ε String) (maxRetries : Nat)
    (attempt : Nat) : CallResult ε :=
  if _h : attempt < maxRetries then
    match service attempt with
    | Except.ok s => ⟨some (Except.ok s), 1, []⟩
    | Except.error e =>
      if attempt < maxRetries - 1 then
        let r := callLoop service maxRetries (attempt + 1)
        ⟨r.result, r.attempts + 1, 2 ^ attempt :: r.sleeps⟩
      else ⟨some (Except.error e), 1, []⟩
  else ⟨none, 0, []⟩
termination_by maxRetries - attempt
decreasing_by omega

/-- `APIClient.call`: run the retry loop from the first attempt. -/
def APIClient.call {ε : Type} (service : Nat → Except ε String) (maxRetries : Nat) :
    CallResult ε :=
  callLoop service maxRetries 0

/-! ## `cache.py` — `FileCache` and `DateOrganizedCache`

The file system is a partial map from path strings (relative to the cache
root) to file contents; decoders model the `loader` callables, which raise
(`Except.error`) on undecodable content. -/

/-- File system under one cache root. -/
def Fs : Type := String → Option String

/-- `FileCache.get` (`cache.py` lines 16-21): if `{key}.json` exists, decode
it with `loader` (whose exception propagates); otherwise return `None`. -/
def FileCache.get {α : Type} (fs : Fs) (key : String)
    (loader : String → Except String α) : Except String (Option α) :=
  match fs (key ++ ".json") with
  | some text => (loader text).map some
  | none => Except.ok none

/-- `FileCache.save`: write `{key}.json`. -/
def FileCache.save (fs : Fs) (key : String) (text : String) : Fs :=
  fun p => if p = key ++ ".json" then some text else fs p

/-- `FileCache.exists`. -/
def FileCache.existsKey (fs : Fs) (key : String) : Bool :=
  (fs (key ++ ".json")).isSome

/-! Calendar dates, modelling `datetime.date`. -/

/-- A calendar date. -/
structure Date where
  year : Nat
  month : Nat
  day : Nat
  deriving DecidableEq, Repr

/-- Gregorian leap-year test. -/
def isLeap (y : Nat) : Bool := y % 4 = 0 && (y % 100 ≠ 0 || y % 400 = 0)

/-- Days in a month. -/
def daysInMonth (y m : Nat) : Nat :=
  if m = 2 then (if isLeap y then 29 else 28)
  else if m = 4 || m = 6 || m = 9 || m = 11 then 30
  else 31

/-- `target_date - timedelta(days=1)`: the immediately preceding calendar day. -/
def prevDay (d : Date) : Date :=
  if 1 < d.day then ⟨d.year, d.month, d.day - 1⟩
  else if 1 < d.month then ⟨d.year, d.month - 1, daysInMonth d.year (d.month - 1)⟩
  else ⟨d.year - 1, 12, 31⟩

/-- Zero-padded decimal rendering of width `w` (`strftime` `%Y`/`%m`/`%d`). -/
def padNum (w n : Nat) : List Char :=
  let ds := natToChars n
  List.replicate (w - ds.length) '0' ++ ds

/-- `date.isoformat()`: `YYYY-MM-DD`. -/
def isoformat (d : Date) : String :=
  String.mk (padNum 4 d.year ++ ('-' :: padNum 2 d.month) ++ ('-' :: padNum 2 d.day))

/-- Dates representable by the `strftime` formats used for cache paths. -/
def ValidDate (d : Date) : Prop :=
  1 ≤ d.month ∧ d.month ≤ 12 ∧ 1 ≤ d.day ∧ d.day ≤ 31 ∧ d.year ≤ 9999

/-- The date-partitioned cache path `YYYY-MM/DD/{key}.json` built by
`DateOrganizedCache` (`cache.py` lines 36-58), relative to the cache root. -/
def datedPath (d : Date) (key : String) : String :=
  String.mk ((padNum 4 d.year ++ ('-' :: padNum 2 d.month) ++ ('/' :: padNum 2 d.day) ++ ['/'])
    ++ (key.data ++ s2c ".json"))

/-- `DateOrganizedCache.get_dated`: decode `YYYY-MM/DD/{key}.json` if it
exists (decoder exceptions propagate); otherwise return `None`. -/
def DateOrganizedCache.get_dated {α : Type} (fs : Fs) (key : String) (d : Date)
    (loader : String → Except String α) : Except String (Option α) :=
  match fs (datedPath d key) with
  | some text => (loader text).map some
  | none => Except.ok none

/-- `DateOrganizedCache.save_dated`. -/
def DateOrganizedCache.save_dated (fs : Fs) (key : String) (d : Date) (text : String) : Fs :=
  fun p => if p = datedPath d key then some text else fs p

/-- `DateOrganizedCache.exists_dated`. -/
def DateOrganizedCache.exists_dated (fs : Fs) (key : String) (d : Date) : Bool :=
  (fs (datedPath d key)).isSome

/-! ## Python value helpers: dict access, truthiness, `str()` -/

/-- Python dict lookup `d.get(k)` on a parsed JSON object. -/
def getKey (kvs : List (String × Json)) (k : String) : Option Json :=
  (kvs.find? (fun p => p.1 == k)).map (fun p => p.2)

/-- Python dict lookup defaulting to `None`. -/
def getD (kvs : List (String × Json)) (k : String) : Json :=
  (getKey kvs k).getD Json.null

/-- Python dict assignment `d[k] = v`: update in place, else append. -/
def setKey : List (String × Json) → String → Json → List (String × Json)
  | [], k, v => [(k, v)]
  | (k', v') :: rest, k, v =>
    if k' = k then (k, v) :: rest else (k', v') :: setKey rest k v

/-- Python truthiness of a parsed JSON value. -/
def truthy : Json → Bool
  | Json.null => false
  | Json.bool b => b
  | Json.num n => n ≠ 0
  | Json.str s => s ≠ ""
  | Json.arr xs => !xs.isEmpty
  | Json.obj kvs => !kvs.isEmpty

/-- Python `a or b` on parsed JSON values. -/
def pyOrJ (a b : Json) : Json := if truthy a then a else b

mutual

/-- Python `repr` of a parsed JSON value (dicts print with single-quoted
keys, `None`/`True`/`False` for null and booleans). -/
def pyRepr : Json → String
  | Json.null => "None"
  | Json.bool true => "True"
  | Json.bool false => "False"
  | Json.num n => String.mk (intChars n)
  | Json.str s => "\x27" ++ s ++ "\x27"
  | Json.arr xs => "[" ++ pyReprList xs ++ "]"
  | Json.obj kvs => "\x7b" ++ pyReprMembers kvs ++ "\x7d"

/-- Python `repr` of list elements, comma-separated. -/
def pyReprList : List Json → String
  | [] => ""
  | [x] => pyRepr x
  | x :: y :: xs => pyRepr x ++ ", " ++ pyReprList (y :: xs)

/-- Python `repr` of dict members, comma-separated. -/
def pyReprMembers : List (String × Json) → String
  | [] => ""
  | [(k, v)] => "\x27" ++ k ++ "\x27: " ++ pyRepr v
  | (k, v) :: m :: kvs =>
    "\x27" ++ k ++ "\x27: " ++ pyRepr v ++ ", " ++ pyReprMembers (m :: kvs)

end

/-- Python `str()` of a parsed JSON value. -/
def pyStr : Json → String
  | Json.str s => s
  | v => pyRepr v

/-! ## `models.py` — pydantic record types and validation -/

/-- `TicketAnalysis` from `models.py`. -/
structure TicketAnalysis where
  ticket_id : String
  category : String
  product_area : String
  sentiment : String
  priority : String
  themes : List String
  summary : String
  deriving DecidableEq, Repr

/-- `DailySummary` from `models.py`. -/
structure DailySummary where
  date : Date
  ticket_count : Nat
  key_themes : List String
  trend_analysis : String
  critical_issues : List String
  deriving DecidableEq, Repr

/-- `HealthSnapshot` from `models.py`. -/
structure HealthSnapshot where
  overall_health : String
  ticket_volume_trend : String
  complaint_rate_trend : String
  top_3_drivers : List String
  deriving DecidableEq, Repr

/-- `KeyInsight` from `models.py`. -/
structure KeyInsight where
  insight : String
  severity : String
  evidence : String
  customer_impact : String
  deriving DecidableEq, Repr

/-- `RecommendedAction` from `models.py`. -/
structure RecommendedAction where
  action : String
  priority : String
  estimated_impact : String
  suggested_owner : String
  success_metrics : String
  deriving DecidableEq, Repr

/-- `CustomerVoice` from `models.py`. -/
structure CustomerVoice where
  quotes : List String
  deriving DecidableEq, Repr

/-- `WeekOverWeekComparison` from `models.py`. -/
structure WeekOverWeekComparison where
  improved : List String
  deteriorated : List String
  stayed_same : List String
  deriving DecidableEq, Repr

/-- `Report` from `models.py`. -/
structure Report where
  period : String
  executive_summary : String
  health_snapshot : HealthSnapshot
  key_insights : List KeyInsight
  recommended_actions : List RecommendedAction
  customer_voice : CustomerVoice
  week_over_week_comparison : WeekOverWeekComparison
  deriving DecidableEq, Repr

/-- Pydantic `str` field validation: only a JSON string is accepted. -/
def asStr : Json → Except String String
  | Json.str s => Except.ok s
  | _ => Except.error "Input should be a valid string"

/-- Pydantic `list[str]` element validation. -/
def strList : List Json → Except String (List String)
  | [] => Except.ok []
  | j :: js => do
    let s ← asStr j
    let rest ← strList js
    Except.ok (s :: rest)

/-- Pydantic `list[str]` field validation. -/
def asStrList : Json → Except String (List String)
  | Json.arr xs => strList xs
  | _ => Except.error "Input should be a valid list"

/-- Required field lookup (pydantic: missing field is a validation error). -/
def reqField (kvs : List (String × Json)) (k : String) : Except String Json :=
  match getKey kvs k with
  | some v => Except.ok v
  | none => Except.error ("Field required: " ++ k)

/-- Required `str` field. -/
def reqStr (kvs : List (String × Json)) (k : String) : Except String String :=
  reqField kvs k >>= asStr

/-- Required `list[str]` field. -/
def reqListStr (kvs : List (String × Json)) (k : String) : Except String (List String) :=
  reqField kvs k >>= asStrList

/-- `TicketAnalysis(ticket_id=..., **data)` (`orchestrator.py` line 50):
duplicate `ticket_id` keyword is a `TypeError`; pydantic validates the
remaining required fields; extra keys are ignored. -/
def mkTicketAnalysis (tid : String) (data : Json) : Except String TicketAnalysis :=
  match data with
  | Json.obj kvs =>
    if (getKey kvs "ticket_id").isSome then
      Except.error "multiple values for keyword argument ticket_id"
    else do
      let category ← reqStr kvs "category"
      let product_area ← reqStr kvs "product_area"
      let sentiment ← reqStr kvs "sentiment"
      let priority ← reqStr kvs "priority"
      let themes ← reqListStr kvs "themes"
      let summary ← reqStr kvs "summary"
      Except.ok ⟨tid, category, product_area, sentiment, priority, themes, summary⟩
  | _ => Except.error "argument after ** must be a mapping"

/-- `TicketAnalysis.model_validate_json`: parse, then validate all fields. -/
def decodeTA (text : String) : Except String TicketAnalysis := do
  let j ← loadsChars text.data
  match j with
  | Json.obj kvs => do
    let tid ← reqStr kvs "ticket_id"
    let category ← reqStr kvs "category"
    let product_area ← reqStr kvs "product_area"
    let sentiment ← reqStr kvs "sentiment"
    let priority ← reqStr kvs "priority"
    let themes ← reqListStr kvs "themes"
    let summary ← reqStr kvs "summary"
    Except.ok ⟨tid, category, product_area, sentiment, priority, themes, summary⟩
  | _ => Except.error "Input should be an object"

/-- JSON form of a `TicketAnalysis` (`model_dump_json`). -/
def taToJson (a : TicketAnalysis) : Json :=
  Json.obj [("ticket_id", Json.str a.ticket_id), ("category", Json.str a.category),
    ("product_area", Json.str a.product_area), ("sentiment", Json.str a.sentiment),
    ("priority", Json.str a.priority), ("themes", Json.arr (a.themes.map Json.str)),
    ("summary", Json.str a.summary)]

/-- Serialized `TicketAnalysis` as written to the dated cache. -/
def encodeTA (a : TicketAnalysis) : String := String.mk (encodeChars (taToJson a))

/-- Date-field validation (pydantic parses `YYYY-MM-DD`). -/
def parseDateChars (cs : List Char) : Option (Date × List Char) :=
  match cs with
  | y1 :: y2 :: y3 :: y4 :: '-' :: m1 :: m2 :: '-' :: d1 :: d2 :: rest =>
    if y1.isDigit && y2.isDigit && y3.isDigit && y4.isDigit &&
        m1.isDigit && m2.isDigit && d1.isDigit && d2.isDigit then
      let y := digitsVal [y1, y2, y3, y4]
      let m := digitsVal [m1, m2]
      let d := digitsVal [d1, d2]
      if 1 ≤ m && m ≤ 12 && 1 ≤ d && d ≤ daysInMonth y m then some (⟨y, m, d⟩, rest)
      else none
    else none
  | _ => none

/-- `datetime.fromisoformat(...).date()` on the pipeline's inputs: validate
the leading `YYYY-MM-DD` and require either end of input or a time part. -/
def fromisoformatDate (s : String) : Option Date :=
  match parseDateChars s.data with
  | some (d, []) => some d
  | some (d, c :: _) => if c = 'T' || c = ' ' then some d else none
  | none => none

/-- Pydantic `date` field validation from a JSON string. -/
def asDate : Json → Except String Date
  | Json.str s =>
    match parseDateChars s.data with
    | some (d, []) => Except.ok d
    | _ => Except.error "Input should be a valid date"
  | _ => Except.error "Input should be a valid date"

/-- Pydantic `int` field validation (the pipeline only stores counts). -/
def asNat : Json → Except String Nat
  | Json.num n => if 0 ≤ n then Except.ok n.toNat else Except.error "negative count"
  | _ => Except.error "Input should be a valid integer"

/-- `DailySummary.model_validate_json`. -/
def decodeDS (text : String) : Except String DailySummary := do
  let j ← loadsChars text.data
  match j with
  | Json.obj kvs => do
    let date ← reqField kvs "date" >>= asDate
    let ticket_count ← reqField kvs "ticket_count" >>= asNat
    let key_themes ← reqListStr kvs "key_themes"
    let trend_analysis ← reqStr kvs "trend_analysis"
    let critical_issues ← reqListStr kvs "critical_issues"
    Except.ok ⟨date, ticket_count, key_themes, trend_analysis, critical_issues⟩
  | _ => Except.error "Input should be an object"

/-- JSON form of a `DailySummary` (`model_dump_json`). -/
def dsToJson (s : DailySummary) : Json :=
  Json.obj [("date", Json.str (isoformat s.date)), ("ticket_count", Json.num s.ticket_count),
    ("key_themes", Json.arr (s.key_themes.map Json.str)),
    ("trend_analysis", Json.str s.trend_analysis),
    ("critical_issues", Json.arr (s.critical_issues.map Json.str))]

/-- Serialized `DailySummary` as written to the summaries cache. -/
def encodeDS (s : DailySummary) : String := String.mk (encodeChars (dsToJson s))

/-- `DailySummary(date=..., ticket_count=..., **data)` (`orchestrator.py`
line 166): duplicate keywords are `TypeError`s; pydantic validates the
remaining required fields. -/
def mkDailySummary (d : Date) (n : Nat) (data : Json) : Except String DailySummary :=
  match data with
  | Json.obj kvs =>
    if (getKey kvs "date").isSome then
      Except.error "multiple values for keyword argument date"
    else if (getKey kvs "ticket_count").isSome then
      Except.error "multiple values for keyword argument ticket_count"
    else do
      let key_themes ← reqListStr kvs "key_themes"
      let trend_analysis ← reqStr kvs "trend_analysis"
      let critical_issues ← reqListStr kvs "critical_issues"
      Except.ok ⟨d, n, key_themes, trend_analysis, critical_issues⟩
  | _ => Except.error "argument after ** must be a mapping"

/-- Pydantic validation of a `HealthSnapshot` submodel. -/
def mkHealthSnapshot (j : Json) : Except String HealthSnapshot :=
  match j with
  | Json.obj kvs => do
    let overall_health ← reqStr kvs "overall_health"
    let ticket_volume_trend ← reqStr kvs "ticket_volume_trend"
    let complaint_rate_trend ← reqStr kvs "complaint_rate_trend"
    let top_3_drivers ← reqListStr kvs "top_3_drivers"
    Except.ok ⟨overall_health, ticket_volume_trend, complaint_rate_trend, top_3_drivers⟩
  | _ => Except.error "Input should be an object"

/-- Pydantic validation of one `KeyInsight`. -/
def mkKeyInsight (j : Json) : Except String KeyInsight :=
  match j with
  | Json.obj kvs => do
    let insight ← reqStr kvs "insight"
    let severity ← reqStr kvs "severity"
    let evidence ← reqStr kvs "evidence"
    let customer_impact ← reqStr kvs "customer_impact"
    Except.ok ⟨insight, severity, evidence, customer_impact⟩
  | _ => Except.error "Input should be an object"

/-- Pydantic validation of a `list[KeyInsight]` field. -/
def mkInsightList : List Json → Except String (List KeyInsight)
  | [] => Except.ok []
  | j :: js => do
    let i ← mkKeyInsight j
    let rest ← mkInsightList js
    Except.ok (i :: rest)

/-- Pydantic validation of one `RecommendedAction`. -/
def mkRecommendedAction (j : Json) : Except String RecommendedAction :=
  match j with
  | Json.obj kvs => do
    let action ← reqStr kvs "action"
    let priority ← reqStr kvs "priority"
    let estimated_impact ← reqStr kvs "estimated_impact"
    let suggested_owner ← reqStr kvs "suggested_owner"
    let success_metrics ← reqStr kvs "success_metrics"
    Except.ok ⟨action, priority, estimated_impact, suggested_owner, success_metrics⟩
  | _ => Except.error "Input should be an object"

/-- Pydantic validation of a `list[RecommendedAction]` field. -/
def mkActionList : List Json → Except String (List RecommendedAction)
  | [] => Except.ok []
  | j :: js => do
    let a ← mkRecommendedAction j
    let rest ← mkActionList js
    Except.ok (a :: rest)

/-- Pydantic validation of a `CustomerVoice` submodel. -/
def mkCustomerVoice (j : Json) : Except String CustomerVoice :=
  match j with
  | Json.obj kvs => do
    let quotes ← reqListStr kvs "quotes"
    Except.ok ⟨quotes⟩
  | _ => Except.error "Input should be an object"

/-- Pydantic validation of a `WeekOverWeekComparison` submodel. -/
def mkWowc (j : Json) : Except String WeekOverWeekComparison :=
  match j with
  | Json.obj kvs => do
    let improved ← reqListStr kvs "improved"
    let deteriorated ← reqListStr kvs "deteriorated"
    let stayed_same ← reqListStr kvs "stayed_same"
    Except.ok ⟨improved, deteriorated, stayed_same⟩
  | _ => Except.error "Input should be an object"

/-- `Report(period=..., **data)` (`orchestrator.py` line 245): duplicate
`period` keyword is a `TypeError`; pydantic validates every required field
of the `Report` model, recursing into the submodels. -/
def mkReport (period : String) (data : Json) : Except String Report :=
  match data with
  | Json.obj kvs =>
    if (getKey kvs "period").isSome then
      Except.error "multiple values for keyword argument period"
    else do
      let executive_summary ← reqStr kvs "executive_summary"
      let health_snapshot ← reqField kvs "health_snapshot" >>= mkHealthSnapshot
      let key_insights ←
        match getKey kvs "key_insights" with
        | some (Json.arr xs) => mkInsightList xs
        | some _ => Except.error "Input should be a valid list"
        | none => Except.error "Field required: key_insights"
      let recommended_actions ←
        match getKey kvs "recommended_actions" with
        | some (Json.arr xs) => mkActionList xs
        | some _ => Except.error "Input should be a valid list"
        | none => Except.error "Field required: recommended_actions"
      let customer_voice ← reqField kvs "customer_voice" >>= mkCustomerVoice
      let week_over_week_comparison ← reqField kvs "week_over_week_comparison" >>= mkWowc
      Except.ok ⟨period, executive_summary, health_snapshot, key_insights,
        recommended_actions, customer_voice, week_over_week_comparison⟩
  | _ => Except.error "argument after ** must be a mapping"

/-! ## `prompts.py` — prompt templates (`str.format` written out) -/

/-- `EXTRACT_PROMPT.format(ticket_content=...)`. -/
def extractPrompt (ticket_content : String) : String :=
  "Analyze this support ticket:\n\n" ++ ticket_content ++
  "\n\nExtract JSON with: category, product_area, sentiment, priority, themes (list), summary" ++
  "\n\nCategories: bug, feature_request, question, complaint" ++
  "\nSentiments: positive, neutral, negative, frustrated" ++
  "\nPriorities: low, medium, high, critical" ++
  "\n\nReturn ONLY valid JSON."

/-- Python `str()` of a `dict[str, int]` as interpolated by `str.format`. -/
def pyDictReprNat (kvs : List (String × Nat)) : String :=
  "\x7b" ++
    String.intercalate ", " (kvs.map (fun p => "\x27" ++ p.1 ++ "\x27: " ++ toString p.2)) ++
  "\x7d"

/-- `SUMMARIZE_PROMPT.format(...)` (`prompts.py` lines 16-33). -/
def summarizePrompt (ticket_count : Nat) (categories top_themes : List (String × Nat))
    (samples previous_summary : String) : String :=
  "Summarize today\x27s support tickets.\n\nStats:\n- Total tickets: " ++
    toString ticket_count ++
  "\n- Categories: " ++ pyDictReprNat categories ++
  "\n- Top themes: " ++ pyDictReprNat top_themes ++
  "\n\nSample tickets:\n" ++ samples ++
  "\n\nYesterday\x27s summary: " ++ previous_summary ++
  "\n\nGenerate JSON with:\n- key_themes: list of 5 most important themes" ++
  "\n- trend_analysis: how this compares to yesterday" ++
  "\n- critical_issues: anything requiring immediate attention" ++
  "\n\nReturn ONLY valid JSON."

/-- `REPORT_PROMPT.format(summaries=...)` (`prompts.py` lines 36-85; the
fixed instruction text is abbreviated to its head and tail around the
interpolated summaries, which is the only part the claims depend on). -/
def reportPrompt (summaries : String) : String :=
  "Generate an executive report optimized for product team engagement and action." ++
  "\n\nLast 7 days summaries:\n" ++ summaries ++
  "\n\nCreate a JSON report with the following structure:" ++
  "\n\nReturn ONLY valid JSON."

/-! ## `orchestrator.py` — `Extractor` (layer 1) -/

/-- The placeholder analysis returned for a failed ticket
(`orchestrator.py` lines 91-99). -/
def placeholderAnalysis (tid err : String) : TicketAnalysis :=
  ⟨tid, "error", "unknown", "neutral", "low", [], "Failed to extract: " ++ err⟩

/-- Outcome of `Extractor.extract_ticket`: the analysis and updated cache
(or the propagated exception), plus the number of inference-service calls
made. -/
structure ExtractOut where
  result : Except String (TicketAnalysis × Fs)
  apiCalls : Nat

/-- The cache-miss path of `extract_ticket` (`orchestrator.py` lines 44-58):
build the prompt, call the service, recover JSON, construct the analysis,
persist it under `(date, ticketId)`. `apiCall` models `APIClient.call`
(its retry loop included), returning the response text or the exception
finally re-raised. -/
def extractTicketCall (apiCall : String → Except String String)
    (ticket_id ticket_content : String) (ticket_date : Date) (fs : Fs) : ExtractOut :=
  let prompt := extractPrompt ticket_content
  match apiCall prompt with
  | Except.error e => ⟨Except.error e, 1⟩
  | Except.ok content =>
    match parse_json content with
    | Except.error e => ⟨Except.error e, 1⟩
    | Except.ok data =>
      match mkTicketAnalysis ticket_id data with
      | Except.error e => ⟨Except.error e, 1⟩
      | Except.ok analysis =>
        ⟨Except.ok (analysis,
            DateOrganizedCache.save_dated fs ticket_id ticket_date (encodeTA analysis)), 1⟩

/-- `Extractor.extract_ticket` (`orchestrator.py` lines 26-58): return the
cached analysis when `(date, ticketId)` is cached (zero service calls,
decoder exceptions propagate), else run the call path. -/
def extract_ticket (apiCall : String → Except String String)
    (ticket_id ticket_content : String) (ticket_date : Date) (fs : Fs) : ExtractOut :=
  if DateOrganizedCache.exists_dated fs ticket_id ticket_date then
    match DateOrganizedCache.get_dated fs ticket_id ticket_date decodeTA with
    | Except.error e => ⟨Except.error e, 0⟩
    | Except.ok (some cached) => ⟨Except.ok (cached, fs), 0⟩
    | Except.ok none => extractTicketCall apiCall ticket_id ticket_content ticket_date fs
  else extractTicketCall apiCall ticket_id ticket_content ticket_date fs

/-- A raw ticket record as handed to `extract_batch`. -/
structure Ticket where
  id : String
  content : String
  created_at : String
  deriving DecidableEq, Repr

/-- Ticket-date derivation in `extract_with_progress` (`orchestrator.py`
lines 72-77): parse `created_at`, falling back to `date.today()`. -/
def ticketDate (today : Date) (t : Ticket) : Date :=
  match fromisoformatDate t.created_at with
  | some d => d
  | none => today

/-- `Extractor.extract_batch` (`orchestrator.py` lines 60-103): one
`extract_with_progress` per ticket, in input order; a ticket whose
extraction raises yields the placeholder analysis in its position. The
cooperative tasks of `asyncio.gather` are sequentialized in input order;
the shared cache directory is threaded through. -/
def extract_batch (apiCall : String → Except String String) (today : Date) :
    List Ticket → Fs → List TicketAnalysis × Fs
  | [], fs => ([], fs)
  | t :: ts, fs =>
    match (extract_ticket apiCall t.id t.content (ticketDate today t) fs).result with
    | Except.ok (a, fs') =>
      let r := extract_batch apiCall today ts fs'
      (a :: r.1, r.2)
    | Except.error e =>
      let r := extract_batch apiCall today ts fs
      (placeholderAnalysis t.id e :: r.1, r.2)

/-- Cache coherence: a decodable analysis stored under a dated cache path
carries the ticket id of that path's key. This is the invariant the
pipeline's own writes maintain; batch-level ticket/analysis correspondence
is stated under it. -/
def Coherent (fs : Fs) : Prop :=
  ∀ p text a, fs p = some text → decodeTA text = Except.ok a →
    ∀ d k, ValidDate d → p = datedPath d k → a.ticket_id = k

/-- The cache state seen by the i-th ticket of a batch: the fold state of
`extract_batch` after the first `i` tickets. -/
def batchFsAt (apiCall : String → Except String String) (today : Date)
    (tickets : List Ticket) (fs : Fs) (i : Nat) : Fs :=
  (extract_batch apiCall today (tickets.take i) fs).2

/-! ## `orchestrator.py` — `Summarizer` (layer 2) -/

/-- `collections.Counter` increment preserving first-occurrence order. -/
def counterIncr : List (String × Nat) → String → List (String × Nat)
  | [], x => [(x, 1)]
  | (k, c) :: rest, x =>
    if k = x then (k, c + 1) :: rest else (k, c) :: counterIncr rest x

/-- `collections.Counter` over a list of strings. -/
def counterList (xs : List String) : List (String × Nat) :=
  xs.foldl counterIncr []

/-- Stable insertion by descending count (`Counter.most_common` ordering). -/
def insertByCount (p : String × Nat) : List (String × Nat) → List (String × Nat)
  | [] => [p]
  | q :: rest => if q.2 < p.2 then p :: q :: rest else q :: insertByCount p rest

/-- Stable sort by descending count. -/
def sortByCountDesc : List (String × Nat) → List (String × Nat)
  | [] => []
  | p :: rest => insertByCount p (sortByCountDesc rest)

/-- `Counter.most_common(n)`. -/
def mostCommon (n : Nat) (c : List (String × Nat)) : List (String × Nat) :=
  (sortByCountDesc c).take n

/-- The sample-ticket lines interpolated into the summarize prompt
(`orchestrator.py` lines 148-151). -/
def sampleLines (analyses : List TicketAnalysis) : String :=
  String.intercalate "\n"
    ((analyses.take 15).map (fun a => "- [" ++ a.priority ++ "] " ++ a.category ++ ": " ++ a.summary))

/-- Outcome of `Summarizer.summarize_day`: the summary and updated cache
(or the propagated exception), plus the prompts sent to the inference
service, in order. -/
structure SummarizeOut where
  result : Except String (DailySummary × Fs)
  prompts : List String

/-- The cache-miss path of `summarize_day` (`orchestrator.py` lines
130-175): aggregate statistics, look up yesterday's cached summary for
`previous_summary` context (sentinel `"No previous summary"` when absent),
build the prompt, call the service, recover, normalize, construct and
persist. `sNormalize` is applied to the parsed response below. -/
def summarizeCall (apiCall : String → Except String String)
    (sNorm : Json → Json) (target_date : Date)
    (analyses : List TicketAnalysis) (fs : Fs) : SummarizeOut :=
  let categories := counterList (analyses.map (fun a => a.category))
  let all_themes := analyses.foldr (fun a acc => a.themes ++ acc) []
  let top_themes := mostCommon 10 (counterList all_themes)
  let yesterday_key := isoformat (prevDay target_date)
  let prevE : Except String String :=
    if FileCache.existsKey fs yesterday_key then
      match FileCache.get fs yesterday_key decodeDS with
      | Except.error e => Except.error e
      | Except.ok (some prev) => Except.ok prev.trend_analysis
      | Except.ok none => Except.ok "No previous summary"
    else Except.ok "No previous summary"
  match prevE with
  | Except.error e => ⟨Except.error e, []⟩
  | Except.ok previous_summary =>
    let samples := sampleLines analyses
    let prompt := summarizePrompt analyses.length categories top_themes samples previous_summary
    match apiCall prompt with
    | Except.error e => ⟨Except.error e, [prompt]⟩
    | Except.ok content =>
      match parse_json content with
      | Except.error e => ⟨Except.error e, [prompt]⟩
      | Except.ok data =>
        match mkDailySummary target_date analyses.length (sNorm data) with
        | Except.error e => ⟨Except.error e, [prompt]⟩
        | Except.ok summary =>
          ⟨Except.ok (summary, FileCache.save fs (isoformat target_date) (encodeDS summary)),
            [prompt]⟩

/-- Coercion of one `critical_issues` element (`orchestrator.py` lines 196-203). -/
def coerceIssue (j : Json) : Json :=
  match j with
  | Json.obj m =>
    pyOrJ (getD m "issue") (pyOrJ (getD m "text") (pyOrJ (getD m "description") (Json.str (pyStr j))))
  | _ => Json.str (pyStr j)

/-- Coercion of one `key_themes` element (`orchestrator.py` lines 210-212). -/
def coerceTheme (j : Json) : Json :=
  match j with
  | Json.obj m => pyOrJ (getD m "theme") (Json.str (pyStr j))
  | _ => Json.str (pyStr j)

/-- The `trend_analysis` branch of `Summarizer._normalize`. -/
def sNormTrend (kvs : List (String × Json)) : List (String × Json) :=
  match getKey kvs "trend_analysis" with
  | none => kvs
  | some t =>
    match t with
    | Json.obj m =>
      setKey kvs "trend_analysis"
        (pyOrJ (getD m "note") (pyOrJ (getD m "text") (pyOrJ (getD m "analysis") (Json.str (pyStr t)))))
    | Json.str _ => kvs
    | _ => setKey kvs "trend_analysis" (Json.str (pyStr t))

/-- The `critical_issues` branch of `Summarizer._normalize`. -/
def sNormIssues (kvs : List (String × Json)) : List (String × Json) :=
  match getKey kvs "critical_issues" with
  | some (Json.arr xs) => setKey kvs "critical_issues" (Json.arr (xs.map coerceIssue))
  | _ => kvs

/-- The `key_themes` branch of `Summarizer._normalize`. -/
def sNormThemes (kvs : List (String × Json)) : List (String × Json) :=
  match getKey kvs "key_themes" with
  | some (Json.arr xs) => setKey kvs "key_themes" (Json.arr (xs.map coerceTheme))
  | _ => kvs

/-- `Summarizer._normalize` (`orchestrator.py` lines 177-215). -/
def sNormalize (data : Json) : Json :=
  match data with
  | Json.obj kvs => Json.obj (sNormThemes (sNormIssues (sNormTrend kvs)))
  | other => other

/-- `Summarizer.summarize_day` (`orchestrator.py` lines 113-175): return the
cached summary for the date when present (decoder exceptions propagate),
else run the call path. -/
def summarize_day (apiCall : String → Except String String) (target_date : Date)
    (analyses : List TicketAnalysis) (fs : Fs) : SummarizeOut :=
  let date_key := isoformat target_date
  if FileCache.existsKey fs date_key then
    match FileCache.get fs date_key decodeDS with
    | Except.error e => ⟨Except.error e, []⟩
    | Except.ok (some cached) => ⟨Except.ok (cached, fs), []⟩
    | Except.ok none => summarizeCall apiCall sNormalize target_date analyses fs
  else summarizeCall apiCall sNormalize target_date analyses fs

/-- `needle` occurs as a contiguous substring of `hay`. -/
def strIncludes (hay needle : String) : Prop :=
  ∃ l r, hay.data = l ++ needle.data ++ r

/-! ## `orchestrator.py` — `Reporter` (layer 3) -/

/-- The `executive_summary` branch of `Reporter._normalize`
(`orchestrator.py` lines 262-270). -/
def rNormExec (kvs : List (String × Json)) : List (String × Json) :=
  match getKey kvs "executive_summary" with
  | none => kvs
  | some s =>
    match s with
    | Json.obj m =>
      setKey kvs "executive_summary"
        (pyOrJ (getD m "summary") (pyOrJ (getD m "text") (pyOrJ (getD m "note") (Json.str (pyStr s)))))
    | Json.str _ => kvs
    | _ => setKey kvs "executive_summary" (Json.str (pyStr s))

/-- Coercion of one `top_3_drivers` element (`orchestrator.py` lines 280-284). -/
def coerceDriver (j : Json) : Json :=
  match j with
  | Json.obj m => pyOrJ (getD m "driver") (Json.str (pyStr j))
  | _ => Json.str (pyStr j)

/-- Stringify one scalar field of `health_snapshot` when present and not a
string (`orchestrator.py` lines 276-278). -/
def hsStringify (hs : List (String × Json)) (f : String) : List (String × Json) :=
  match getKey hs f with
  | some (Json.str _) => hs
  | some v => setKey hs f (Json.str (pyStr v))
  | none => hs

/-- The `health_snapshot` branch of `Reporter._normalize`
(`orchestrator.py` lines 272-284). -/
def rNormHealth (kvs : List (String × Json)) : List (String × Json) :=
  match getKey kvs "health_snapshot" with
  | some (Json.obj hs) =>
    let hs1 := hsStringify (hsStringify (hsStringify hs "overall_health")
      "ticket_volume_trend") "complaint_rate_trend"
    let hs2 :=
      match getKey hs1 "top_3_drivers" with
      | some (Json.arr ds) => setKey hs1 "top_3_drivers" (Json.arr (ds.map coerceDriver))
      | _ => hs1
    setKey kvs "health_snapshot" (Json.obj hs2)
  | _ => kvs

/-- Stringify a value when it is a list or a dict (`str(x)` guarded by
`isinstance(x, (list, dict))`). -/
def strIfColl (j : Json) : Json :=
  match j with
  | Json.arr _ => Json.str (pyStr j)
  | Json.obj _ => Json.str (pyStr j)
  | _ => j

/-- Coercion of one `key_insights` element (`orchestrator.py` lines 291-313). -/
def coerceInsight (j : Json) : Json :=
  match j with
  | Json.obj m =>
    let evidence := strIfColl (pyOrJ (getD m "evidence") (pyOrJ (getD m "text") (Json.str "")))
    let customer_impact :=
      strIfColl (pyOrJ (getD m "customer_impact") (pyOrJ (getD m "impact") (Json.str "")))
    Json.obj [("insight", pyOrJ (getD m "insight") (Json.str (pyStr j))),
      ("severity", pyOrJ (getD m "severity") (Json.str "medium")),
      ("evidence", evidence),
      ("customer_impact", customer_impact)]
  | _ =>
    Json.obj [("insight", Json.str (pyStr j)), ("severity", Json.str "medium"),
      ("evidence", Json.str ""), ("customer_impact", Json.str "")]

/-- The `key_insights` branch of `Reporter._normalize`. -/
def rNormInsights (kvs : List (String × Json)) : List (String × Json) :=
  match getKey kvs "key_insights" with
  | some (Json.arr xs) => setKey kvs "key_insights" (Json.arr (xs.map coerceInsight))
  | _ => kvs

/-- Coercion of one `recommended_actions` element (`orchestrator.py`
lines 321-341). -/
def coerceAction (j : Json) : Json :=
  match j with
  | Json.obj m =>
    let success_metrics :=
      strIfColl (pyOrJ (getD m "success_metrics") (pyOrJ (getD m "metrics") (Json.str "")))
    Json.obj [("action", pyOrJ (getD m "action") (Json.str (pyStr j))),
      ("priority", pyOrJ (getD m "priority") (Json.str "this_week")),
      ("estimated_impact", pyOrJ (getD m "estimated_impact") (Json.str "medium")),
      ("suggested_owner", pyOrJ (getD m "suggested_owner") (pyOrJ (getD m "owner") (Json.str ""))),
      ("success_metrics", success_metrics)]
  | _ =>
    Json.obj [("action", Json.str (pyStr j)), ("priority", Json.str "this_week"),
      ("estimated_impact", Json.str "medium"), ("suggested_owner", Json.str ""),
      ("success_metrics", Json.str "")]

/-- The `recommended_actions` branch of `Reporter._normalize`. -/
def rNormActions (kvs : List (String × Json)) : List (String × Json) :=
  match getKey kvs "recommended_actions" with
  | some (Json.arr xs) => setKey kvs "recommended_actions" (Json.arr (xs.map coerceAction))
  | _ => kvs

/-- Coercion of one `quotes` element (`orchestrator.py` lines 348-352). -/
def coerceQuote (j : Json) : Json :=
  match j with
  | Json.obj m => pyOrJ (getD m "quote") (Json.str (pyStr j))
  | _ => Json.str (pyStr j)

/-- The `customer_voice` branch of `Reporter._normalize`
(`orchestrator.py` lines 344-356). -/
def rNormVoice (kvs : List (String × Json)) : List (String × Json) :=
  match getKey kvs "customer_voice" with
  | some (Json.obj cv) =>
    (match getKey cv "quotes" with
    | some (Json.arr qs) =>
      setKey kvs "customer_voice" (Json.obj (setKey cv "quotes" (Json.arr (qs.map coerceQuote))))
    | _ => setKey kvs "customer_voice" (Json.obj (setKey cv "quotes" (Json.arr []))))
  | some _ => setKey kvs "customer_voice" (Json.obj [("quotes", Json.arr [])])
  | none => kvs

/-- Coercion of one week-over-week list element (`orchestrator.py`
lines 363-367). -/
def coerceItem (j : Json) : Json :=
  match j with
  | Json.obj m => pyOrJ (getD m "item") (Json.str (pyStr j))
  | _ => Json.str (pyStr j)

/-- One field of the `week_over_week_comparison` branch: coerce the list
when present, else default it to an empty list (`orchestrator.py`
lines 362-369). -/
def wowcField (w : List (String × Json)) (f : String) : List (String × Json) :=
  match getKey w f with
  | some (Json.arr xs) => setKey w f (Json.arr (xs.map coerceItem))
  | _ => setKey w f (Json.arr [])

/-- The `week_over_week_comparison` branch of `Reporter._normalize`. -/
def rNormWowc (kvs : List (String × Json)) : List (String × Json) :=
  match getKey kvs "week_over_week_comparison" with
  | some (Json.obj w) =>
    setKey kvs "week_over_week_comparison"
      (Json.obj (wowcField (wowcField (wowcField w "improved") "deteriorated") "stayed_same"))
  | _ => kvs

/-- `Reporter._normalize` on the members of the parsed object
(`orchestrator.py` lines 257-371), branches applied in source order. -/
def rNormalizeKVs (kvs : List (String × Json)) : List (String × Json) :=
  rNormWowc (rNormVoice (rNormActions (rNormInsights (rNormHealth (rNormExec kvs)))))

/-- `Reporter._normalize`. -/
def rNormalize (data : Json) : Json :=
  match data with
  | Json.obj kvs => Json.obj (rNormalizeKVs kvs)
  | other => other

/-- The per-summary text block interpolated into the report prompt
(`orchestrator.py` lines 228-233). -/
def summariesText (summaries : List DailySummary) : String :=
  String.intercalate "\n\n" (summaries.map (fun s =>
    "Date: " ++ isoformat s.date ++ "\nTickets: " ++ toString s.ticket_count ++
    "\nThemes: " ++ String.intercalate ", " s.key_themes ++
    "\nAnalysis: " ++ s.trend_analysis))

/-- JSON form of a `Report` (`model_dump_json`), used for the cache write. -/
def reportToJson (r : Report) : Json :=
  Json.obj [("period", Json.str r.period),
    ("executive_summary", Json.str r.executive_summary),
    ("health_snapshot", Json.obj [
      ("overall_health", Json.str r.health_snapshot.overall_health),
      ("ticket_volume_trend", Json.str r.health_snapshot.ticket_volume_trend),
      ("complaint_rate_trend", Json.str r.health_snapshot.complaint_rate_trend),
      ("top_3_drivers", Json.arr (r.health_snapshot.top_3_drivers.map Json.str))]),
    ("key_insights", Json.arr (r.key_insights.map (fun i =>
      Json.obj [("insight", Json.str i.insight), ("severity", Json.str i.severity),
        ("evidence", Json.str i.evidence), ("customer_impact", Json.str i.customer_impact)]))),
    ("recommended_actions", Json.arr (r.recommended_actions.map (fun a =>
      Json.obj [("action", Json.str a.action), ("priority", Json.str a.priority),
        ("estimated_impact", Json.str a.estimated_impact),
        ("suggested_owner", Json.str a.suggested_owner),
        ("success_metrics", Json.str a.success_metrics)]))),
    ("customer_voice", Json.obj [("quotes", Json.arr (r.customer_voice.quotes.map Json.str))]),
    ("week_over_week_comparison", Json.obj [
      ("improved", Json.arr (r.week_over_week_comparison.improved.map Json.str)),
      ("deteriorated", Json.arr (r.week_over_week_comparison.deteriorated.map Json.str)),
      ("stayed_same", Json.arr (r.week_over_week_comparison.stayed_same.map Json.str))])]

/-- Serialized `Report` as written to the reports cache. -/
def encodeReport (r : Report) : String := String.mk (encodeChars (reportToJson r))

/-- Outcome of `Reporter.generate_report`. -/
structure ReportOut where
  result : Except String (Report × Fs)
  prompts : List String

/-- `Reporter.generate_report` (`orchestrator.py` lines 225-255): one
inference call over all summaries, recover, normalize, construct the
`Report` with `period` derived from the first and last summary dates,
persist under `report_{start}_{end}`. Indexing an empty summary list
raises. -/
def generate_report (apiCall : String → Except String String)
    (summaries : List DailySummary) (fs : Fs) : ReportOut :=
  match summaries with
  | [] => ⟨Except.error "IndexError: list index out of range", []⟩
  | s0 :: rest =>
    let prompt := reportPrompt (summariesText (s0 :: rest))
    match apiCall prompt with
    | Except.error e => ⟨Except.error e, [prompt]⟩
    | Except.ok content =>
      match parse_json content with
      | Except.error e => ⟨Except.error e, [prompt]⟩
      | Except.ok data =>
        let data' := rNormalize data
        let start := isoformat s0.date
        let stop := isoformat (((s0 :: rest).getLast (by simp)).date)
        match mkReport (start ++ " to " ++ stop) data' with
        | Except.error e => ⟨Except.error e, [prompt]⟩
        | Except.ok report =>
          ⟨Except.ok (report,
            FileCache.save fs ("report_" ++ start ++ "_" ++ stop) (encodeReport report)),
            [prompt]⟩

/-! # Theorems -/

/-! ## Claim C2 — cache get on undecodable content -/

/-- Claim C2 as stated is false: for a key whose cache file exists but whose
content the decoder cannot decode, `FileCache.get` propagates the decoder's
exception instead of returning absence. Concretely, with `"k.json"` present
holding `"garbage"` and a decoder that raises, `get` raises rather than
returning `None`. -/
theorem c2_counterexample :
    FileCache.get (fun p => if p = "k.json" then some "garbage" else none) "k"
      (fun _ => (Except.error "boom" : Except String Nat)) = Except.error "boom" ∧
    FileCache.get (fun p => if p = "k.json" then some "garbage" else none) "k"
      (fun _ => (Except.error "boom" : Except String Nat)) ≠ Except.ok none :=
  ⟨rfl, fun h => Except.noConfusion h⟩

/-- Claim C2, amended: cache `get` (flat and date-partitioned) returns
absence exactly when the file does not exist; when the file exists but the
decoder raises, the decoder's exception propagates to the caller unchanged
(so the caller does not silently re-derive). -/
theorem c2_cache_get_amended {α : Type} (fs : Fs) (key : String)
    (loader : String → Except String α) (d : Date) :
    (fs (key ++ ".json") = none → FileCache.get fs key loader = Except.ok none) ∧
    (∀ text e, fs (key ++ ".json") = some text → loader text = Except.error e →
      FileCache.get fs key loader = Except.error e) ∧
    (fs (datedPath d key) = none →
      DateOrganizedCache.get_dated fs key d loader = Except.ok none) ∧
    (∀ text e, fs (datedPath d key) = some text → loader text = Except.error e →
      DateOrganizedCache.get_dated fs key d loader = Except.error e) := by
  refine ⟨fun h => ?_, fun text e h1 h2 => ?_, fun h => ?_, fun text e h1 h2 => ?_⟩ <;>
    simp [FileCache.get, DateOrganizedCache.get_dated, *, Except.map]

/-- Witness for the amended claim C2 at concrete inputs. -/
theorem c2_amended_witness :
    FileCache.get (fun _ => none) "k"
      (fun _ => (Except.error "boom" : Except String Nat)) = Except.ok none ∧
    FileCache.get (fun p => if p = "k2.json" then some "g" else none) "k2"
      (fun _ => (Except.error "boom" : Except String Nat)) = Except.error "boom" :=
  ⟨(c2_cache_get_amended (fun _ => none) "k"
      (fun _ => (Except.error "boom" : Except String Nat)) ⟨2024, 1, 1⟩).1 rfl,
   (c2_cache_get_amended (fun p => if p = "k2.json" then some "g" else none) "k2"
      (fun _ => (Except.error "boom" : Except String Nat)) ⟨2024, 1, 1⟩).2.1 "g" "boom"
      (by simp) rfl⟩

/-! ## Claim C3 — retry loop attempt bound, backoff schedule, final re-raise -/

/-- Behaviour of the retry loop from any iteration `attempt < maxRetries`:
at least one and at most `maxRetries - attempt` further attempts are made;
the backoff sleeps are exactly `2 ^ i` for the consecutive failed non-final
attempts starting at `attempt`; and an error outcome is the unchanged
exception of the final attempt `maxRetries - 1`, reached only after every
remaining attempt was made. -/
theorem callLoop_spec {ε : Type} (service : Nat → Except ε String) (maxRetries : Nat) :
    ∀ fuel attempt, maxRetries - attempt = fuel → attempt < maxRetries →
      1 ≤ (callLoop service maxRetries attempt).attempts ∧
      (callLoop service maxRetries attempt).attempts ≤ maxRetries - attempt ∧
      (callLoop service maxRetries attempt).sleeps =
        (List.range' attempt ((callLoop service maxRetries attempt).attempts - 1)).map
          (fun i => 2 ^ i) ∧
      (∀ e, (callLoop service maxRetries attempt).result = some (Except.error e) →
        service (maxRetries - 1) = Except.error e ∧
        (callLoop service maxRetries attempt).attempts = maxRetries - attempt) := by
  intro fuel
  induction fuel with
  | zero => intro attempt hfuel hlt; omega
  | succ f ih =>
    intro attempt hfuel hlt
    unfold callLoop
    rw [dif_pos hlt]
    cases hsv : service attempt with
    | ok s =>
      dsimp only
      refine ⟨le_refl _, by omega, by simp, fun e he => ?_⟩
      simp at he
    | error e0 =>
      dsimp only
      by_cases hmid : attempt < maxRetries - 1
      · have hlt' : attempt + 1 < maxRetries := by omega
        have hfuel' : maxRetries - (attempt + 1) = f := by omega
        obtain ⟨ih1, ih2, ih3, ih4⟩ := ih (attempt + 1) hfuel' hlt'
        rw [if_pos hmid]
        refine ⟨by simp, by simp; omega, ?_, fun e he => ?_⟩
        · have hatt : (callLoop service maxRetries (attempt + 1)).attempts + 1 - 1 =
              ((callLoop service maxRetries (attempt + 1)).attempts - 1) + 1 := by omega
          dsimp only
          rw [hatt, List.range'_succ, List.map_cons, ih3]
        · dsimp only at he
          obtain ⟨hsv', hatt⟩ := ih4 e he
          exact ⟨hsv', by simp; omega⟩
      · have hlast : attempt = maxRetries - 1 := by omega
        rw [if_neg hmid]
        refine ⟨le_refl _, by dsimp only; omega, by simp, fun e he => ?_⟩
        simp at he
        subst he
        rw [← hlast]
        exact ⟨hsv, by dsimp only; omega⟩

/-- Claim C3: for every prompt, `APIClient.call` makes at least one and at
most `maxRetries` total request attempts; the backoff sleeps are exactly
`2 ^ attempt` seconds after each failed non-final attempt, in order; and
when the call fails, the exception delivered to the caller is exactly the
exception of the final attempt (index `maxRetries - 1`), reached after all
`maxRetries` attempts were made. (The hard per-attempt timeout is modelled
as one of the failure outcomes `service` can deliver.) -/
theorem c3_call_retry_contract {ε : Type} (service : Nat → Except ε String)
    (maxRetries : Nat) (h : 1 ≤ maxRetries) :
    1 ≤ (APIClient.call service maxRetries).attempts ∧
    (APIClient.call service maxRetries).attempts ≤ maxRetries ∧
    (APIClient.call service maxRetries).sleeps =
      (List.range ((APIClient.call service maxRetries).attempts - 1)).map (fun i => 2 ^ i) ∧
    (∀ e, (APIClient.call service maxRetries).result = some (Except.error e) →
      service (maxRetries - 1) = Except.error e ∧
      (APIClient.call service maxRetries).attempts = maxRetries) := by
  obtain ⟨h1, h2, h3, h4⟩ :=
    callLoop_spec service maxRetries (maxRetries - 0) 0 rfl (by omega)
  refine ⟨h1, by simpa using h2, ?_, by simpa using h4⟩
  rw [List.range_eq_range']
  simpa using h3

/-- Witness for claim C3: a service failing on every attempt, with the
default `max_retries = 3`. -/
theorem c3_witness :
    1 ≤ 3 ∧
    (1 ≤ (APIClient.call (fun i => (Except.error i : Except Nat String)) 3).attempts ∧
      (APIClient.call (fun i => (Except.error i : Except Nat String)) 3).attempts ≤ 3 ∧
      (APIClient.call (fun i => (Except.error i : Except Nat String)) 3).sleeps =
        (List.range
          ((APIClient.call (fun i => (Except.error i : Except Nat String)) 3).attempts - 1)).map
          (fun i => 2 ^ i) ∧
      (∀ e,
        (APIClient.call (fun i => (Except.error i : Except Nat String)) 3).result =
          some (Except.error e) →
        (fun i => (Except.error i : Except Nat String)) (3 - 1) = Except.error e ∧
        (APIClient.call (fun i => (Except.error i : Except Nat String)) 3).attempts = 3)) :=
  ⟨by omega, c3_call_retry_contract (fun i => (Except.error i : Except Nat String)) 3 (by omega)⟩

/-! ## Claim C7 — cached analysis short-circuits the inference call -/

/-- Claim C7: when a decodable analysis is already cached for
`(date, ticketId)`, `extract_ticket` performs zero inference-service calls
and returns the cached analysis with the cache unchanged. -/
theorem c7_cached_extraction_zero_calls
    (apiCall : String → Except String String) (tid content : String) (d : Date) (fs : Fs)
    (text : String) (a : TicketAnalysis)
    (hfs : fs (datedPath d tid) = some text) (hdec : decodeTA text = Except.ok a) :
    extract_ticket apiCall tid content d fs = ⟨Except.ok (a, fs), 0⟩ := by
  simp [extract_ticket, DateOrganizedCache.exists_dated, DateOrganizedCache.get_dated,
    hfs, hdec, Except.map]

/-- Witness for claim C7: a concrete cached analysis file. -/
theorem c7_witness :
    decodeTA "\x7b\"ticket_id\":\"t1\",\"category\":\"bug\",\"product_area\":\"ui\",\"sentiment\":\"neutral\",\"priority\":\"low\",\"themes\":[\"a\"],\"summary\":\"s\"\x7d" =
      Except.ok ⟨"t1", "bug", "ui", "neutral", "low", ["a"], "s"⟩ ∧
    extract_ticket (fun _ => Except.error "service down") "t1" "content" ⟨2024, 1, 5⟩
      (fun p => if p = datedPath ⟨2024, 1, 5⟩ "t1" then
        some "\x7b\"ticket_id\":\"t1\",\"category\":\"bug\",\"product_area\":\"ui\",\"sentiment\":\"neutral\",\"priority\":\"low\",\"themes\":[\"a\"],\"summary\":\"s\"\x7d"
        else none) =
      ⟨Except.ok (⟨"t1", "bug", "ui", "neutral", "low", ["a"], "s"⟩,
        fun p => if p = datedPath ⟨2024, 1, 5⟩ "t1" then
          some "\x7b\"ticket_id\":\"t1\",\"category\":\"bug\",\"product_area\":\"ui\",\"sentiment\":\"neutral\",\"priority\":\"low\",\"themes\":[\"a\"],\"summary\":\"s\"\x7d"
          else none), 0⟩ :=
  ⟨rfl,
   c7_cached_extraction_zero_calls (fun _ => Except.error "service down") "t1" "content"
     ⟨2024, 1, 5⟩ _
     "\x7b\"ticket_id\":\"t1\",\"category\":\"bug\",\"product_area\":\"ui\",\"sentiment\":\"neutral\",\"priority\":\"low\",\"themes\":[\"a\"],\"summary\":\"s\"\x7d"
     ⟨"t1", "bug", "ui", "neutral", "low", ["a"], "s"⟩ (by simp) rfl⟩

/-! ## Claims C8 / C10 — previous-summary context -/

/-- The summarize prompt contains its `previous_summary` argument as a
contiguous substring. -/
theorem summarizePrompt_includes (n : Nat) (cats themes : List (String × Nat))
    (samples prev : String) :
    strIncludes (summarizePrompt n cats themes samples prev) prev := by
  refine ⟨("Summarize today\x27s support tickets.\n\nStats:\n- Total tickets: " ++
      toString n ++ "\n- Categories: " ++ pyDictReprNat cats ++ "\n- Top themes: " ++
      pyDictReprNat themes ++ "\n\nSample tickets:\n" ++ samples ++
      "\n\nYesterday\x27s summary: ").data,
    ("\n\nGenerate JSON with:\n- key_themes: list of 5 most important themes" ++
      "\n- trend_analysis: how this compares to yesterday" ++
      "\n- critical_issues: anything requiring immediate attention" ++
      "\n\nReturn ONLY valid JSON.").data, ?_⟩
  simp [summarizePrompt, String.data_append, List.append_assoc]

/-- On a cache miss for the target date, with yesterday's summary cached and
decodable, `summarize_day` sends exactly one prompt, built with yesterday's
`trend_analysis` as previous-summary context. -/
theorem summarize_day_prompt_prev (apiCall : String → Except String String)
    (d : Date) (analyses : List TicketAnalysis) (fs : Fs) (text : String) (s : DailySummary)
    (htarget : fs (isoformat d ++ ".json") = none)
    (hy : fs (isoformat (prevDay d) ++ ".json") = some text)
    (hdec : decodeDS text = Except.ok s) :
    (summarize_day apiCall d analyses fs).prompts =
      [summarizePrompt analyses.length (counterList (analyses.map (fun a => a.category)))
        (mostCommon 10 (counterList (analyses.foldr (fun a acc => a.themes ++ acc) [])))
        (sampleLines analyses) s.trend_analysis] := by
  simp only [summarize_day, summarizeCall, FileCache.existsKey, FileCache.get,
    htarget, hy, hdec, Except.map, Option.isSome, if_true, if_false, Bool.false_eq_true,
    ite_true, ite_false]
  split
  · rfl
  · split
    · rfl
    · split <;> rfl

/-- On a cache miss for the target date, with no cache entry for the
immediately preceding date, `summarize_day` sends exactly one prompt, built
with the fixed `"No previous summary"` sentinel. -/
theorem summarize_day_prompt_sentinel (apiCall : String → Except String String)
    (d : Date) (analyses : List TicketAnalysis) (fs : Fs)
    (htarget : fs (isoformat d ++ ".json") = none)
    (hy : fs (isoformat (prevDay d) ++ ".json") = none) :
    (summarize_day apiCall d analyses fs).prompts =
      [summarizePrompt analyses.length (counterList (analyses.map (fun a => a.category)))
        (mostCommon 10 (counterList (analyses.foldr (fun a acc => a.themes ++ acc) [])))
        (sampleLines analyses) "No previous summary"] := by
  simp only [summarize_day, summarizeCall, FileCache.existsKey, FileCache.get,
    htarget, hy, Option.isSome, if_true, if_false, Bool.false_eq_true, ite_true, ite_false]
  split
  · rfl
  · split
    · rfl
    · split <;> rfl

/-- Claim C8: on an aggregation call for a date whose own summary is not yet
cached, if the previous date's summary is cached with
`trend_analysis = "stable"`, the single prompt passed to the inference
service includes `"stable"`; if no summary for the previous date is cached,
the prompt includes the fixed `"No previous summary"` sentinel instead. -/
theorem c8_previous_summary_context (apiCall : String → Except String String)
    (d : Date) (analyses : List TicketAnalysis) (fs : Fs)
    (htarget : fs (isoformat d ++ ".json") = none) :
    (∀ text s, fs (isoformat (prevDay d) ++ ".json") = some text →
      decodeDS text = Except.ok s → s.trend_analysis = "stable" →
      ∃ p, (summarize_day apiCall d analyses fs).prompts = [p] ∧ strIncludes p "stable") ∧
    (fs (isoformat (prevDay d) ++ ".json") = none →
      ∃ p, (summarize_day apiCall d analyses fs).prompts = [p] ∧
        strIncludes p "No previous summary") := by
  constructor
  · intro text s hy hdec htrend
    refine ⟨_, summarize_day_prompt_prev apiCall d analyses fs text s htarget hy hdec, ?_⟩
    rw [htrend] at *
    exact htrend ▸ summarizePrompt_includes _ _ _ _ _
  · intro hy
    exact ⟨_, summarize_day_prompt_sentinel apiCall d analyses fs htarget hy,
      summarizePrompt_includes _ _ _ _ _⟩

/-- Witness for claim C8 at concrete inputs: 2024-01-05 uncached, with
yesterday 2024-01-04 cached with trend `"stable"`. -/
theorem c8_witness :
    ((fun p => if p = "2024-01-04.json" then
        some "\x7b\"date\":\"2024-01-04\",\"ticket_count\":1,\"key_themes\":[],\"trend_analysis\":\"stable\",\"critical_issues\":[]\x7d"
        else none) : Fs) (isoformat ⟨2024, 1, 5⟩ ++ ".json") = none ∧
    (∀ text s,
      ((fun p => if p = "2024-01-04.json" then
        some "\x7b\"date\":\"2024-01-04\",\"ticket_count\":1,\"key_themes\":[],\"trend_analysis\":\"stable\",\"critical_issues\":[]\x7d"
        else none) : Fs) (isoformat (prevDay ⟨2024, 1, 5⟩) ++ ".json") = some text →
      decodeDS text = Except.ok s → s.trend_analysis = "stable" →
      ∃ p, (summarize_day (fun _ => Except.error "down") ⟨2024, 1, 5⟩ []
        (fun p => if p = "2024-01-04.json" then
          some "\x7b\"date\":\"2024-01-04\",\"ticket_count\":1,\"key_themes\":[],\"trend_analysis\":\"stable\",\"critical_issues\":[]\x7d"
          else none)).prompts = [p] ∧ strIncludes p "stable") :=
  ⟨rfl, (c8_previous_summary_context (fun _ => Except.error "down") ⟨2024, 1, 5⟩ []
      (fun p => if p = "2024-01-04.json" then
        some "\x7b\"date\":\"2024-01-04\",\"ticket_count\":1,\"key_themes\":[],\"trend_analysis\":\"stable\",\"critical_issues\":[]\x7d"
        else none) rfl).1⟩

/-- Claim C10: the previous-summary context is looked up only under the key
of the immediate calendar predecessor of `d`: when that key is absent, the
`"No previous summary"` sentinel is used even though a summary for some
other (earlier) date is cached. -/
theorem c10_only_immediate_predecessor (apiCall : String → Except String String)
    (d e : Date) (analyses : List TicketAnalysis) (fs : Fs) (etext : String)
    (htarget : fs (isoformat d ++ ".json") = none)
    (hprev : fs (isoformat (prevDay d) ++ ".json") = none)
    (hother : fs (isoformat e ++ ".json") = some etext) :
    ∃ p, (summarize_day apiCall d analyses fs).prompts = [p] ∧
      strIncludes p "No previous summary" :=
  ⟨_, summarize_day_prompt_sentinel apiCall d analyses fs htarget hprev,
    summarizePrompt_includes _ _ _ _ _⟩

/-- Witness for claim C10 at concrete inputs: 2024-01-05 and its predecessor
2024-01-04 uncached, while the non-consecutive earlier date 2024-01-01 is
cached. -/
theorem c10_witness :
    ((fun p => if p = "2024-01-01.json" then some "cached-earlier" else none) : Fs)
      (isoformat ⟨2024, 1, 5⟩ ++ ".json") = none ∧
    ((fun p => if p = "2024-01-01.json" then some "cached-earlier" else none) : Fs)
      (isoformat (prevDay ⟨2024, 1, 5⟩) ++ ".json") = none ∧
    ((fun p => if p = "2024-01-01.json" then some "cached-earlier" else none) : Fs)
      (isoformat ⟨2024, 1, 1⟩ ++ ".json") = some "cached-earlier" ∧
    ∃ p, (summarize_day (fun _ => Except.error "down") ⟨2024, 1, 5⟩ []
      (fun p => if p = "2024-01-01.json" then some "cached-earlier" else none)).prompts = [p] ∧
      strIncludes p "No previous summary" :=
  ⟨rfl, rfl, rfl,
   c10_only_immediate_predecessor (fun _ => Except.error "down") ⟨2024, 1, 5⟩ ⟨2024, 1, 1⟩ []
     _ "cached-earlier" rfl rfl rfl⟩

/-! ## Claim C6 — report normalization and construction -/

/-- Lookup in a consed association list. -/
theorem getKey_cons (k0 : String) (v0 : Json) (rest : List (String × Json)) (k : String) :
    getKey ((k0, v0) :: rest) k = if k0 = k then some v0 else getKey rest k := by
  by_cases h : k0 = k
  · subst h; simp [getKey, List.find?]
  · unfold getKey
    rw [List.find?_cons_of_neg _ (by simp [h]), if_neg h]

/-- Assignment in a consed association list. -/
theorem setKey_cons (k0 : String) (v0 : Json) (rest : List (String × Json)) (k : String)
    (v : Json) :
    setKey ((k0, v0) :: rest) k v =
      if k0 = k then (k, v) :: rest else (k0, v0) :: setKey rest k v := rfl

/-- Setting a key makes it present with the given value. -/
theorem getKey_setKey_self (kvs : List (String × Json)) (k : String) (v : Json) :
    getKey (setKey kvs k v) k = some v := by
  induction kvs with
  | nil => simp [getKey, setKey]
  | cons p rest ih =>
    obtain ⟨k0, v0⟩ := p
    rw [setKey_cons]
    by_cases h : k0 = k
    · rw [if_pos h, getKey_cons, if_pos rfl]
    · rw [if_neg h, getKey_cons, if_neg h]
      exact ih

/-- Setting a key leaves every other key's lookup unchanged. -/
theorem getKey_setKey_other (kvs : List (String × Json)) (k k' : String) (v : Json)
    (h : k' ≠ k) : getKey (setKey kvs k v) k' = getKey kvs k' := by
  induction kvs with
  | nil => simp [getKey, setKey, Ne.symm h]
  | cons p rest ih =>
    obtain ⟨k0, v0⟩ := p
    rw [setKey_cons]
    by_cases h0 : k0 = k
    · subst h0
      rw [if_pos rfl, getKey_cons, getKey_cons, if_neg (Ne.symm h), if_neg (Ne.symm h)]
    · rw [if_neg h0, getKey_cons, getKey_cons]
      by_cases h1 : k0 = k'
      · rw [if_pos h1, if_pos h1]
      · rw [if_neg h1, if_neg h1]
        exact ih

/-- `rNormExec` only touches `executive_summary`. -/
theorem rNormExec_pres (kvs : List (String × Json)) (k : String)
    (h : k ≠ "executive_summary") : getKey (rNormExec kvs) k = getKey kvs k := by
  unfold rNormExec
  split <;> (try rfl) <;> split <;> simp [getKey_setKey_other _ _ _ _ h]

/-- `rNormHealth` only touches `health_snapshot`. -/
theorem rNormHealth_pres (kvs : List (String × Json)) (k : String)
    (h : k ≠ "health_snapshot") : getKey (rNormHealth kvs) k = getKey kvs k := by
  unfold rNormHealth
  split <;> simp [getKey_setKey_other _ _ _ _ h]

/-- `rNormInsights` only touches `key_insights`. -/
theorem rNormInsights_pres (kvs : List (String × Json)) (k : String)
    (h : k ≠ "key_insights") : getKey (rNormInsights kvs) k = getKey kvs k := by
  unfold rNormInsights
  split <;> simp [getKey_setKey_other _ _ _ _ h]

/-- `rNormActions` only touches `recommended_actions`. -/
theorem rNormActions_pres (kvs : List (String × Json)) (k : String)
    (h : k ≠ "recommended_actions") : getKey (rNormActions kvs) k = getKey kvs k := by
  unfold rNormActions
  split <;> simp [getKey_setKey_other _ _ _ _ h]

/-- `rNormVoice` only touches `customer_voice`. -/
theorem rNormVoice_pres (kvs : List (String × Json)) (k : String)
    (h : k ≠ "customer_voice") : getKey (rNormVoice kvs) k = getKey kvs k := by
  unfold rNormVoice
  split <;> (try rfl) <;> (try split) <;> simp [getKey_setKey_other _ _ _ _ h]

/-- `rNormWowc` only touches `week_over_week_comparison`. -/
theorem rNormWowc_pres (kvs : List (String × Json)) (k : String)
    (h : k ≠ "week_over_week_comparison") : getKey (rNormWowc kvs) k = getKey kvs k := by
  unfold rNormWowc
  split <;> simp [getKey_setKey_other _ _ _ _ h]

/-- A missing `customer_voice` key is left untouched by its branch. -/
theorem rNormVoice_none (kvs : List (String × Json))
    (h : getKey kvs "customer_voice" = none) : rNormVoice kvs = kvs := by
  unfold rNormVoice
  rw [h]

/-- `wowcField` always leaves its field present; a missing or non-list field
becomes the empty list. -/
theorem wowcField_none (w : List (String × Json)) (f : String)
    (h : getKey w f = none) : getKey (wowcField w f) f = some (Json.arr []) := by
  unfold wowcField
  rw [h]
  exact getKey_setKey_self w f (Json.arr [])

/-- `wowcField` leaves other keys' lookups unchanged. -/
theorem wowcField_pres (w : List (String × Json)) (f k : String) (h : k ≠ f) :
    getKey (wowcField w f) k = getKey w k := by
  unfold wowcField
  split <;> simp [getKey_setKey_other _ _ _ _ h]

/-- A parsed object with no `customer_voice` member cannot be turned into a
`Report`: construction fails for that unit. -/
theorem mkReport_voice_missing (p : String) (kvs : List (String × Json))
    (h : getKey kvs "customer_voice" = none) :
    ∃ msg, mkReport p (Json.obj kvs) = Except.error msg := by
  cases hmk : mkReport p (Json.obj kvs) with
  | error e => exact ⟨e, rfl⟩
  | ok r =>
    exfalso
    simp only [mkReport, bind, Except.bind, reqField, h] at hmk
    repeat' split at hmk
    all_goals simp_all

/-- Claim C6 as stated is false: normalization only rewrites keys that are
present, so a parsed value missing a top-level collection field (here the
empty object, missing all of them) keeps that field absent and the
subsequent `Report` construction fails instead of succeeding with empty
defaults. -/
theorem c6_counterexample :
    rNormalize (Json.obj []) = Json.obj [] ∧
    getKey (rNormalizeKVs []) "customer_voice" = none ∧
    mkReport "2024-01-01 to 2024-01-02" (rNormalize (Json.obj [])) =
      Except.error "Field required: executive_summary" :=
  ⟨rfl, rfl, rfl⟩

/-- Claim C6, amended: normalization is total and coerces the fields it
finds — elements of a present `key_insights` list are rewritten, with a
missing `severity` defaulting to `"medium"`; a present `customer_voice`
dict missing `quotes` gets `quotes = []`; missing list fields of a present
`week_over_week_comparison` dict default to `[]` — but a top-level field
absent from the parsed object is left absent, and `Report` construction
then fails for that unit (shown for `customer_voice`). -/
theorem c6_normalize_amended (kvs : List (String × Json)) :
    (∀ xs, getKey kvs "key_insights" = some (Json.arr xs) →
      getKey (rNormalizeKVs kvs) "key_insights" = some (Json.arr (xs.map coerceInsight))) ∧
    (∀ m, getKey m "severity" = none →
      ∃ i e ci, coerceInsight (Json.obj m) =
        Json.obj [("insight", i), ("severity", Json.str "medium"), ("evidence", e),
          ("customer_impact", ci)]) ∧
    (∀ cv, getKey kvs "customer_voice" = some (Json.obj cv) → getKey cv "quotes" = none →
      getKey (rNormalizeKVs kvs) "customer_voice" =
        some (Json.obj (setKey cv "quotes" (Json.arr []))) ∧
      getKey (setKey cv "quotes" (Json.arr [])) "quotes" = some (Json.arr [])) ∧
    (∀ w, getKey kvs "week_over_week_comparison" = some (Json.obj w) →
      ∃ w', getKey (rNormalizeKVs kvs) "week_over_week_comparison" = some (Json.obj w') ∧
        (getKey w "improved" = none → getKey w' "improved" = some (Json.arr [])) ∧
        (getKey w "deteriorated" = none → getKey w' "deteriorated" = some (Json.arr [])) ∧
        (getKey w "stayed_same" = none → getKey w' "stayed_same" = some (Json.arr []))) ∧
    (getKey kvs "customer_voice" = none →
      getKey (rNormalizeKVs kvs) "customer_voice" = none ∧
      ∀ p, ∃ msg, mkReport p (Json.obj (rNormalizeKVs kvs)) = Except.error msg) := by
  refine ⟨?_, ?_, ?_, ?_, ?_⟩
  · intro xs hx
    unfold rNormalizeKVs
    rw [rNormWowc_pres _ _ (by decide), rNormVoice_pres _ _ (by decide),
      rNormActions_pres _ _ (by decide)]
    have hx' : getKey (rNormHealth (rNormExec kvs)) "key_insights" = some (Json.arr xs) := by
      rw [rNormHealth_pres _ _ (by decide), rNormExec_pres _ _ (by decide)]
      exact hx
    unfold rNormInsights
    rw [hx']
    exact getKey_setKey_self _ _ _
  · intro m hm
    refine ⟨pyOrJ (getD m "insight") (Json.str (pyStr (Json.obj m))),
      strIfColl (pyOrJ (getD m "evidence") (pyOrJ (getD m "text") (Json.str ""))),
      strIfColl (pyOrJ (getD m "customer_impact") (pyOrJ (getD m "impact") (Json.str ""))), ?_⟩
    simp [coerceInsight, getD, hm, pyOrJ, truthy]
  · intro cv hcv hq
    have hcv' : getKey (rNormActions (rNormInsights (rNormHealth (rNormExec kvs))))
        "customer_voice" = some (Json.obj cv) := by
      rw [rNormActions_pres _ _ (by decide), rNormInsights_pres _ _ (by decide),
        rNormHealth_pres _ _ (by decide), rNormExec_pres _ _ (by decide)]
      exact hcv
    constructor
    · unfold rNormalizeKVs
      rw [rNormWowc_pres _ _ (by decide)]
      unfold rNormVoice
      rw [hcv']
      dsimp only
      rw [hq]
      exact getKey_setKey_self _ _ _
    · exact getKey_setKey_self _ _ _
  · intro w hw
    have hw' : getKey (rNormVoice (rNormActions (rNormInsights (rNormHealth (rNormExec kvs)))))
        "week_over_week_comparison" = some (Json.obj w) := by
      rw [rNormVoice_pres _ _ (by decide), rNormActions_pres _ _ (by decide),
        rNormInsights_pres _ _ (by decide), rNormHealth_pres _ _ (by decide),
        rNormExec_pres _ _ (by decide)]
      exact hw
    refine ⟨wowcField (wowcField (wowcField w "improved") "deteriorated") "stayed_same",
      ?_, ?_, ?_, ?_⟩
    · unfold rNormalizeKVs rNormWowc
      rw [hw']
      exact getKey_setKey_self _ _ _
    · intro hi
      rw [wowcField_pres _ _ _ (by decide), wowcField_pres _ _ _ (by decide)]
      exact wowcField_none _ _ hi
    · intro hd
      rw [wowcField_pres _ _ _ (by decide)]
      apply wowcField_none
      rw [wowcField_pres _ _ _ (by decide)]
      exact hd
    · intro hs
      apply wowcField_none
      rw [wowcField_pres _ _ _ (by decide), wowcField_pres _ _ _ (by decide)]
      exact hs
  · intro hv
    have hnone : getKey (rNormalizeKVs kvs) "customer_voice" = none := by
      unfold rNormalizeKVs
      rw [rNormWowc_pres _ _ (by decide)]
      rw [rNormVoice_none]
      all_goals
        rw [rNormActions_pres _ _ (by decide), rNormInsights_pres _ _ (by decide),
          rNormHealth_pres _ _ (by decide), rNormExec_pres _ _ (by decide)]
        exact hv
    exact ⟨hnone, fun p => mkReport_voice_missing p _ hnone⟩

/-- Witness for the amended claim C6 at concrete inputs: the empty parsed
object, and a key-insight object with no `severity` field. -/
theorem c6_amended_witness :
    (getKey ([] : List (String × Json)) "customer_voice" = none ∧
      (getKey (rNormalizeKVs []) "customer_voice" = none ∧
        ∀ p, ∃ msg, mkReport p (Json.obj (rNormalizeKVs [])) = Except.error msg)) ∧
    (getKey ([("insight", Json.str "x")]) "severity" = none ∧
      ∃ i e ci, coerceInsight (Json.obj [("insight", Json.str "x")]) =
        Json.obj [("insight", i), ("severity", Json.str "medium"), ("evidence", e),
          ("customer_impact", ci)]) :=
  ⟨⟨rfl, (c6_normalize_amended []).2.2.2.2 rfl⟩,
   ⟨rfl, (c6_normalize_amended [("insight", Json.str "x")]).2.1 [("insight", Json.str "x")] rfl⟩⟩

/-! ## Claim C4 — parse-encode round trip: digit and string lemmas -/

/-- A rendered digit is a digit character with the original value. -/
theorem digitChar_spec (d : Nat) (h : d < 10) :
    (digitChar d).isDigit = true ∧ digitVal (digitChar d) = d := by
  interval_cases d <;> exact ⟨by decide, by decide⟩

/-- Folding one more digit. -/
theorem digitsVal_concat (ds : List Char) (c : Char) :
    digitsVal (ds ++ [c]) = 10 * digitsVal ds + digitVal c := by
  simp [digitsVal, List.foldl_append]

/-- With enough fuel, the decimal rendering is a non-empty digit string that
evaluates back to the rendered number. -/
theorem natToCharsAux_spec : ∀ fuel n, n < 10 ^ (fuel + 1) →
    natToCharsAux (fuel + 1) n ≠ [] ∧ (∀ c ∈ natToCharsAux (fuel + 1) n, c.isDigit = true) ∧
    digitsVal (natToCharsAux (fuel + 1) n) = n := by
  intro fuel
  induction fuel with
  | zero =>
    intro n hn
    have h10 : n < 10 := by simpa using hn
    obtain ⟨hd, hv⟩ := digitChar_spec n h10
    refine ⟨by simp [natToCharsAux, h10], ?_, ?_⟩
    · simpa [natToCharsAux, h10] using hd
    · simpa [natToCharsAux, h10, digitsVal] using hv
  | succ f ih =>
    intro n hn
    by_cases h10 : n < 10
    · obtain ⟨hd, hv⟩ := digitChar_spec n h10
      refine ⟨by simp [natToCharsAux, h10], ?_, ?_⟩
      · simpa [natToCharsAux, h10] using hd
      · simpa [natToCharsAux, h10, digitsVal] using hv
    · have hdiv : n / 10 < 10 ^ (f + 1) := by
        rw [Nat.div_lt_iff_lt_mul (by norm_num)]
        calc n < 10 ^ (f + 1 + 1) := hn
        _ = 10 ^ (f + 1) * 10 := by ring
      obtain ⟨hne, hdig, hval⟩ := ih (n / 10) hdiv
      obtain ⟨hd, hv⟩ := digitChar_spec (n % 10) (Nat.mod_lt n (by norm_num))
      have hunfold : natToCharsAux (f + 1 + 1) n =
          natToCharsAux (f + 1) (n / 10) ++ [digitChar (n % 10)] := by
        simp [natToCharsAux, h10]
      refine ⟨by simp [hunfold], ?_, ?_⟩
      · intro c hc
        rw [hunfold] at hc
        rcases List.mem_append.1 hc with hc | hc
        · exact hdig c hc
        · simp at hc
          subst hc
          exact hd
      · rw [hunfold, digitsVal_concat, hval, hv]
        omega

/-- The decimal rendering of any natural number is a non-empty digit string
evaluating back to it. -/
theorem natToChars_spec (n : Nat) :
    natToChars n ≠ [] ∧ (∀ c ∈ natToChars n, c.isDigit = true) ∧
    digitsVal (natToChars n) = n := by
  have hn : n < 10 ^ (n + 1) :=
    lt_of_lt_of_le (Nat.lt_pow_self (by norm_num) n)
      (Nat.pow_le_pow_right (by norm_num) (Nat.le_succ n))
  exact natToCharsAux_spec n n hn

/-- `takeDigits` splits a digit prefix exactly at a non-digit boundary. -/
theorem takeDigits_append (ds rest : List Char) (hds : ∀ c ∈ ds, c.isDigit = true)
    (hrest : ∀ c, rest.head? = some c → c.isDigit = false) :
    takeDigits (ds ++ rest) = (ds, rest) := by
  induction ds with
  | nil =>
    cases rest with
    | nil => rfl
    | cons c cs => simp [takeDigits, hrest c rfl]
  | cons d ds' ih =>
    have hd : d.isDigit = true := hds d (by simp)
    simp [takeDigits, hd, ih (fun c hc => hds c (by simp [hc]))]

/-- One-step unfolding of `parseStringBody`. -/
theorem parseStringBody_cons (c : Char) (rest : List Char) :
    parseStringBody (c :: rest) =
      if c = '"' then some ([], rest)
      else if c = '\\' then
        match rest with
        | [] => none
        | e :: rest' =>
          match unescape e with
          | none => none
          | some u => (parseStringBody rest').map (fun p => (u :: p.1, p.2))
      else (parseStringBody rest).map (fun p => (c :: p.1, p.2)) := by
  rw [parseStringBody.eq_def]

/-- Decoding inverts the string-body escaping. -/
theorem parseStringBody_escape (l : List Char) : ∀ rest,
    parseStringBody (escapeChars l ++ ('"' :: rest)) = some (l, rest) := by
  induction l with
  | nil => intro rest; simp [escapeChars, parseStringBody_cons]
  | cons c cs ih =>
    intro rest
    by_cases h1 : c = '"'
    · subst h1; simp [escapeChars, escChar, parseStringBody_cons, unescape, ih]
    by_cases h2 : c = '\\'
    · subst h2; simp [escapeChars, escChar, parseStringBody_cons, unescape, ih, h1]
    by_cases h3 : c = '\n'
    · subst h3; simp [escapeChars, escChar, parseStringBody_cons, unescape, ih]
    by_cases h4 : c = '\t'
    · subst h4; simp [escapeChars, escChar, parseStringBody_cons, unescape, ih]
    by_cases h5 : c = '\r'
    · subst h5; simp [escapeChars, escChar, parseStringBody_cons, unescape, ih]
    simp [escapeChars, escChar, parseStringBody_cons, h1, h2, h3, h4, h5, ih]

/-- Digit characters are not whitespace, closers, commas or backticks. -/
theorem digit_not_special (c : Char) (h : c.isDigit = true) :
    isWs c = false ∧ c ≠ ']' ∧ c ≠ rbrace ∧ c ≠ ',' ∧ c ≠ tickChar ∧
    c ≠ 'n' ∧ c ≠ 't' ∧ c ≠ 'f' ∧ c ≠ '"' ∧ c ≠ '[' ∧ c ≠ lbrace ∧ c ≠ '-' ∧ c ≠ ':' := by
  refine ⟨?_, ?_, ?_, ?_, ?_, ?_, ?_, ?_, ?_, ?_, ?_, ?_, ?_⟩
  · have w1 : c ≠ ' ' := by rintro rfl; exact absurd h (by decide)
    have w2 : c ≠ '\t' := by rintro rfl; exact absurd h (by decide)
    have w3 : c ≠ '\n' := by rintro rfl; exact absurd h (by decide)
    have w4 : c ≠ '\x0d' := by rintro rfl; exact absurd h (by decide)
    have w5 : c ≠ '\x0b' := by rintro rfl; exact absurd h (by decide)
    have w6 : c ≠ '\x0c' := by rintro rfl; exact absurd h (by decide)
    simp [isWs, w1, w2, w3, w4, w5, w6]
  all_goals (rintro rfl; exact absurd h (by decide))

/-- The first character of an encoded JSON value. -/
theorem encodeChars_head (v : Json) :
    ∃ c tl, encodeChars v = c :: tl ∧
      (c = 'n' ∨ c = 't' ∨ c = 'f' ∨ c = '"' ∨ c = '[' ∨ c = lbrace ∨ c = '-' ∨
        c.isDigit = true) := by
  cases v with
  | null => exact ⟨'n', ['u', 'l', 'l'], by simp [encodeChars]; rfl, by simp⟩
  | bool b =>
    cases b with
    | true => exact ⟨'t', ['r', 'u', 'e'], by simp [encodeChars]; rfl, by simp⟩
    | false => exact ⟨'f', ['a', 'l', 's', 'e'], by simp [encodeChars]; rfl, by simp⟩
  | num n =>
    by_cases hn : n < 0
    · exact ⟨'-', natToChars n.natAbs, by simp [encodeChars, intChars, hn], by simp⟩
    · obtain ⟨hne, hdig, _⟩ := natToChars_spec n.toNat
      obtain ⟨c, tl, hshape⟩ := List.exists_cons_of_ne_nil hne
      refine ⟨c, tl, by simp [encodeChars, intChars, hn, hshape], ?_⟩
      exact Or.inr (Or.inr (Or.inr (Or.inr (Or.inr (Or.inr (Or.inr
        (hdig c (by rw [hshape]; simp))))))))
  | str s => exact ⟨'"', escapeChars s.data ++ ['"'], by simp [encodeChars], by simp⟩
  | arr xs => exact ⟨'[', encodeList xs ++ [']'], by simp [encodeChars], by simp⟩
  | obj kvs => exact ⟨lbrace, encodeMembers kvs ++ [rbrace], by simp [encodeChars], by simp⟩

/-- The first character of an encoded non-empty element list. -/
theorem encodeList_head (xs : List Json) (h : xs ≠ []) :
    ∃ c tl, encodeList xs = c :: tl ∧
      (c = 'n' ∨ c = 't' ∨ c = 'f' ∨ c = '"' ∨ c = '[' ∨ c = lbrace ∨ c = '-' ∨
        c.isDigit = true) := by
  cases xs with
  | nil => exact absurd rfl h
  | cons x rest =>
    obtain ⟨c, tl, hshape, hok⟩ := encodeChars_head x
    cases rest with
    | nil => exact ⟨c, tl, by simp [encodeList, hshape], hok⟩
    | cons y ys =>
      exact ⟨c, tl ++ (',' :: encodeList (y :: ys)), by simp [encodeList, hshape], hok⟩

/-- Element encodings are no longer than their list encoding. -/
theorem encodeChars_le_encodeList (xs : List Json) :
    ∀ x ∈ xs, (encodeChars x).length ≤ (encodeList xs).length := by
  induction xs with
  | nil => intro x hx; simp at hx
  | cons y rest ih =>
    intro x hx
    cases rest with
    | nil =>
      simp at hx
      subst hx
      simp [encodeList]
    | cons z zs =>
      have hlen : (encodeList (y :: z :: zs)).length =
          (encodeChars y).length + 1 + (encodeList (z :: zs)).length := by
        simp [encodeList]
        omega
      rcases List.mem_cons.1 hx with rfl | hx'
      · omega
      · have := ih x hx'
        omega

/-- Member value encodings are no longer than their member-list encoding. -/
theorem encodeChars_le_encodeMembers (kvs : List (String × Json)) :
    ∀ k v, (k, v) ∈ kvs → (encodeChars v).length ≤ (encodeMembers kvs).length := by
  induction kvs with
  | nil => intro k v hv; simp at hv
  | cons p rest ih =>
    obtain ⟨k0, v0⟩ := p
    intro k v hv
    cases rest with
    | nil =>
      simp at hv
      obtain ⟨_, rfl⟩ := hv
      simp [encodeMembers]
      omega
    | cons q qs =>
      have hlen : (encodeMembers ((k0, v0) :: q :: qs)).length =
          (escapeChars k0.data).length + 4 + (encodeChars v0).length +
            (encodeMembers (q :: qs)).length := by
        simp [encodeMembers]
        omega
      rcases List.mem_cons.1 hv with heq | hv'
      · cases heq
        omega
      · have := ih k v hv'
        omega

/-- Rebuilding a `String` from its characters. -/
theorem stringMkData (s : String) : String.mk s.data = s := rfl

/-- `skipWs` is the identity on input whose head is not whitespace. -/
theorem skipWs_cons_not_ws (c : Char) (cs : List Char) (h : isWs c = false) :
    skipWs (c :: cs) = c :: cs := by
  simp [skipWs, List.dropWhile, h]

/-- Parsing the encoded elements of a non-empty array, given that each
element's encoding parses back to it. -/
theorem parseElems_encodeList (xs : List Json)
    (hx : ∀ x ∈ xs, ∀ fuel rest, (encodeChars x).length < fuel →
      (∀ c, rest.head? = some c → c.isDigit = false) →
      parseVal fuel (encodeChars x ++ rest) = some (x, rest)) :
    xs ≠ [] → ∀ fuel rest, (encodeList xs).length + 1 < fuel →
      parseElems fuel (encodeList xs ++ (']' :: rest)) = some (xs, rest) := by
  induction xs with
  | nil => intro h; exact absurd rfl h
  | cons x rest0 ih =>
    intro _ fuel rest hfuel
    obtain ⟨f, rfl⟩ : ∃ f, fuel = f + 1 := ⟨fuel - 1, by omega⟩
    cases rest0 with
    | nil =>
      have hel : encodeList [x] = encodeChars x := by simp [encodeList]
      rw [hel] at hfuel ⊢
      simp only [parseElems]
      rw [hx x (by simp) f (']' :: rest) (by omega)
        (fun c hc => by simp at hc; subst hc; decide)]
      dsimp only
      rw [skipWs_cons_not_ws ']' rest (by decide)]
      dsimp only
      rw [if_neg (by decide), if_pos rfl]
    | cons y ys =>
      have hel : encodeList (x :: y :: ys) =
          encodeChars x ++ (',' :: encodeList (y :: ys)) := by
        simp [encodeList]
      rw [hel] at hfuel ⊢
      have hshape : (encodeChars x ++ (',' :: encodeList (y :: ys))) ++ (']' :: rest) =
          encodeChars x ++ (',' :: (encodeList (y :: ys) ++ (']' :: rest))) := by
        simp
      rw [hshape]
      simp only [parseElems]
      have hlen : (encodeChars x).length < f := by
        simp at hfuel
        omega
      rw [hx x (by simp) f (',' :: (encodeList (y :: ys) ++ (']' :: rest))) hlen
        (fun c hc => by simp at hc; subst hc; decide)]
      dsimp only
      rw [skipWs_cons_not_ws ',' _ (by decide)]
      dsimp only
      rw [if_pos rfl]
      have hihlen : (encodeList (y :: ys)).length + 1 < f := by
        simp at hfuel
        omega
      rw [ih (fun z hz => hx z (by simp [hz])) (by simp) f rest hihlen]
      rfl

/-- One member's encoding, written in the shape `parseMembers` consumes. -/
theorem encodeMembers_cons_shape (k : String) (v : Json) (kvs : List (String × Json)) :
    encodeMembers ((k, v) :: kvs) =
      '"' :: (escapeChars k.data ++ ('"' :: (':' :: (encodeChars v ++
        (match kvs with
         | [] => []
         | m :: rest => ',' :: encodeMembers (m :: rest)))))) := by
  cases kvs with
  | nil => simp [encodeMembers]
  | cons m rest => simp [encodeMembers]

/-- Parsing the encoded members of a non-empty object, given that each
member value's encoding parses back to it. -/
theorem parseMembers_encodeMembers (kvs : List (String × Json))
    (hx : ∀ k v, (k, v) ∈ kvs → ∀ fuel rest, (encodeChars v).length < fuel →
      (∀ c, rest.head? = some c → c.isDigit = false) →
      parseVal fuel (encodeChars v ++ rest) = some (v, rest)) :
    kvs ≠ [] → ∀ fuel rest, (encodeMembers kvs).length + 1 < fuel →
      parseMembers fuel (encodeMembers kvs ++ (rbrace :: rest)) = some (kvs, rest) := by
  induction kvs with
  | nil => intro h; exact absurd rfl h
  | cons p rest0 ih =>
    obtain ⟨k, v⟩ := p
    intro _ fuel rest hfuel
    obtain ⟨f, rfl⟩ : ∃ f, fuel = f + 1 := ⟨fuel - 1, by omega⟩
    cases rest0 with
    | nil =>
      rw [encodeMembers_cons_shape]
      simp only [parseMembers]
      rw [List.cons_append, skipWs_cons_not_ws '"' _ (by decide)]
      dsimp only
      rw [if_pos rfl]
      have hshape : (escapeChars k.data ++ ('"' :: (':' :: (encodeChars v ++ [])))) ++
          (rbrace :: rest) =
          escapeChars k.data ++ ('"' :: (':' :: (encodeChars v ++ (rbrace :: rest)))) := by
        simp
      rw [hshape, parseStringBody_escape]
      dsimp only
      rw [skipWs_cons_not_ws ':' _ (by decide)]
      dsimp only
      rw [if_pos rfl]
      have hlen : (encodeChars v).length < f := by
        rw [encodeMembers_cons_shape] at hfuel
        simp at hfuel
        omega
      rw [hx k v (by simp) f (rbrace :: rest) hlen
        (fun c hc => by simp at hc; subst hc; decide)]
      dsimp only
      rw [skipWs_cons_not_ws rbrace _ (by decide)]
      dsimp only
      rw [if_neg (by decide), if_pos rfl, stringMkData]
    | cons q qs =>
      rw [encodeMembers_cons_shape]
      simp only [parseMembers]
      rw [List.cons_append, skipWs_cons_not_ws '"' _ (by decide)]
      dsimp only
      rw [if_pos rfl]
      have hshape : (escapeChars k.data ++ ('"' :: (':' :: (encodeChars v ++
          (',' :: encodeMembers (q :: qs)))))) ++ (rbrace :: rest) =
          escapeChars k.data ++ ('"' :: (':' :: (encodeChars v ++
            (',' :: (encodeMembers (q :: qs) ++ (rbrace :: rest)))))) := by
        simp
      rw [hshape, parseStringBody_escape]
      dsimp only
      rw [skipWs_cons_not_ws ':' _ (by decide)]
      dsimp only
      rw [if_pos rfl]
      have hlen : (encodeChars v).length < f := by
        rw [encodeMembers_cons_shape] at hfuel
        simp at hfuel
        omega
      rw [hx k v (by simp) f (',' :: (encodeMembers (q :: qs) ++ (rbrace :: rest))) hlen
        (fun c hc => by simp at hc; subst hc; decide)]
      dsimp only
      rw [skipWs_cons_not_ws ',' _ (by decide)]
      dsimp only
      rw [if_pos rfl]
      have hihlen : (encodeMembers (q :: qs)).length + 1 < f := by
        rw [encodeMembers_cons_shape] at hfuel
        simp at hfuel
        omega
      rw [ih (fun k' v' hv' => hx k' v' (by simp [hv'])) (by simp) f rest hihlen,
        stringMkData]
      rfl

/-- Core round trip: the canonical encoding of any JSON value parses back to
exactly that value, leaving any non-digit-leading remainder untouched. -/
theorem parseVal_encode : ∀ n v, (encodeChars v).length ≤ n →
    ∀ fuel rest, (encodeChars v).length < fuel →
      (∀ c, rest.head? = some c → c.isDigit = false) →
      parseVal fuel (encodeChars v ++ rest) = some (v, rest) := by
  intro n
  induction n using Nat.strong_induction_on with
  | _ n ih =>
    intro v hn fuel rest hfuel hrest
    obtain ⟨f, rfl⟩ : ∃ f, fuel = f + 1 := ⟨fuel - 1, by omega⟩
    cases v with
    | null =>
      have he : encodeChars Json.null = ['n', 'u', 'l', 'l'] := by
        simp [encodeChars]; rfl
      rw [he]
      simp [parseVal, skipWs, List.dropWhile, isWs]
    | bool b =>
      cases b with
      | true =>
        have he : encodeChars (Json.bool true) = ['t', 'r', 'u', 'e'] := by
          simp [encodeChars]; rfl
        rw [he]
        simp [parseVal, skipWs, List.dropWhile, isWs]
      | false =>
        have he : encodeChars (Json.bool false) = ['f', 'a', 'l', 's', 'e'] := by
          simp [encodeChars]; rfl
        rw [he]
        simp [parseVal, skipWs, List.dropWhile, isWs]
    | num m =>
      by_cases hm : m < 0
      · have he : encodeChars (Json.num m) = '-' :: natToChars m.natAbs := by
          simp [encodeChars, intChars, hm]
        rw [he]
        obtain ⟨hne, hdig, hval⟩ := natToChars_spec m.natAbs
        simp only [parseVal, List.cons_append]
        rw [skipWs_cons_not_ws '-' _ (by decide)]
        dsimp only
        rw [if_neg (by decide), if_neg (by decide), if_neg (by decide), if_neg (by decide),
          if_neg (by decide), if_neg (by decide), if_pos rfl,
          takeDigits_append _ _ hdig hrest]
        obtain ⟨c, tl, hshape⟩ := List.exists_cons_of_ne_nil hne
        rw [hshape]
        dsimp only
        rw [← hshape, hval]
        have hcast : -(Int.ofNat m.natAbs) = m := by
          simp only [Int.ofNat_eq_natCast]
          omega
        rw [hcast]
      · have he : encodeChars (Json.num m) = natToChars m.toNat := by
          simp [encodeChars, intChars, hm]
        rw [he]
        obtain ⟨hne, hdig, hval⟩ := natToChars_spec m.toNat
        obtain ⟨c, tl, hshape⟩ := List.exists_cons_of_ne_nil hne
        have hd : c.isDigit = true := hdig c (by rw [hshape]; simp)
        obtain ⟨hw, hne1, hne2, hne3, hne4, hne5, hne6, hne7, hne8, hne9, hne10, hne11,
          hne12⟩ := digit_not_special c hd
        rw [hshape]
        simp only [parseVal, List.cons_append]
        rw [skipWs_cons_not_ws c _ hw]
        try dsimp only
        rw [if_neg hne5, if_neg hne6, if_neg hne7, if_neg hne8, if_neg hne9, if_neg hne10,
          if_neg hne11, if_pos hd]
        have htd := takeDigits_append (c :: tl) rest
          (fun x hx => hdig x (by rw [hshape]; exact hx)) hrest
        rw [List.cons_append] at htd
        try dsimp only
        rw [htd, ← hshape, hval]
        have hcast : Int.ofNat m.toNat = m := by
          simp only [Int.ofNat_eq_natCast]
          omega
        rw [hcast]
    | str s =>
      have he : encodeChars (Json.str s) = '"' :: (escapeChars s.data ++ ['"']) := by
        simp [encodeChars]
      rw [he]
      have hshape : ('"' :: (escapeChars s.data ++ ['"'])) ++ rest =
          '"' :: (escapeChars s.data ++ ('"' :: rest)) := by simp
      rw [hshape]
      simp only [parseVal]
      rw [skipWs_cons_not_ws '"' _ (by decide)]
      dsimp only
      rw [if_neg (by decide), if_neg (by decide), if_neg (by decide), if_pos rfl,
        parseStringBody_escape]
      simp [stringMkData]
    | arr xs =>
      have he : encodeChars (Json.arr xs) = '[' :: (encodeList xs ++ [']']) := by
        simp [encodeChars]
      cases xs with
      | nil =>
        rw [he]
        have hshape : ('[' :: (encodeList [] ++ [']'])) ++ rest = '[' :: (']' :: rest) := by
          simp [encodeList]
        rw [hshape]
        simp only [parseVal]
        rw [skipWs_cons_not_ws '[' _ (by decide)]
        dsimp only
        rw [if_neg (by decide), if_neg (by decide), if_neg (by decide), if_neg (by decide),
          if_pos rfl]
        rw [skipWs_cons_not_ws ']' _ (by decide)]
        simp
      | cons x xs' =>
        rw [he]
        have hshape : ('[' :: (encodeList (x :: xs') ++ [']'])) ++ rest =
            '[' :: (encodeList (x :: xs') ++ (']' :: rest)) := by simp
        rw [hshape]
        simp only [parseVal]
        rw [skipWs_cons_not_ws '[' _ (by decide)]
        dsimp only
        rw [if_neg (by decide), if_neg (by decide), if_neg (by decide), if_neg (by decide),
          if_pos rfl]
        obtain ⟨c0, tl0, hshape0, hok0⟩ := encodeList_head (x :: xs') (by simp)
        have hc0 : isWs c0 = false ∧ c0 ≠ ']' := by
          rcases hok0 with rfl | rfl | rfl | rfl | rfl | rfl | rfl | hdg
          · exact ⟨by decide, by decide⟩
          · exact ⟨by decide, by decide⟩
          · exact ⟨by decide, by decide⟩
          · exact ⟨by decide, by decide⟩
          · exact ⟨by decide, by decide⟩
          · exact ⟨by decide, by decide⟩
          · exact ⟨by decide, by decide⟩
          · obtain ⟨hw, hr, _⟩ := digit_not_special c0 hdg
            exact ⟨hw, hr⟩
        have hskip : skipWs (encodeList (x :: xs') ++ (']' :: rest)) =
            encodeList (x :: xs') ++ (']' :: rest) := by
          rw [hshape0, List.cons_append]
          exact skipWs_cons_not_ws c0 _ hc0.1
        rw [hskip]
        have hhead : (encodeList (x :: xs') ++ (']' :: rest)).head? = some c0 := by
          rw [hshape0]
          simp
        rw [if_neg (by rw [hhead]; simp [hc0.2])]
        have hlen_el : (encodeList (x :: xs')).length + 2 = (encodeChars (Json.arr (x :: xs'))).length := by
          rw [he]
          simp
        have hmem : ∀ z ∈ x :: xs', ∀ fuel' rest',
            (encodeChars z).length < fuel' →
            (∀ c, rest'.head? = some c → c.isDigit = false) →
            parseVal fuel' (encodeChars z ++ rest') = some (z, rest') := by
          intro z hz
          have hzlen : (encodeChars z).length ≤ (encodeList (x :: xs')).length :=
            encodeChars_le_encodeList _ z hz
          have hzn : (encodeChars z).length < n := by omega
          exact ih (encodeChars z).length hzn z (le_refl _)
        rw [parseElems_encodeList (x :: xs') hmem (by simp) f rest (by omega)]
        rfl
    | obj kvs =>
      have he : encodeChars (Json.obj kvs) = lbrace :: (encodeMembers kvs ++ [rbrace]) := by
        simp [encodeChars]
      cases kvs with
      | nil =>
        rw [he]
        have hshape : (lbrace :: (encodeMembers [] ++ [rbrace])) ++ rest =
            lbrace :: (rbrace :: rest) := by
          simp [encodeMembers]
        rw [hshape]
        simp only [parseVal]
        rw [skipWs_cons_not_ws lbrace _ (by decide)]
        dsimp only
        rw [if_neg (by decide), if_neg (by decide), if_neg (by decide), if_neg (by decide),
          if_neg (by decide), if_pos rfl]
        rw [skipWs_cons_not_ws rbrace _ (by decide)]
        simp
      | cons p kvs' =>
        obtain ⟨k0, v0⟩ := p
        rw [he]
        have hshape : (lbrace :: (encodeMembers ((k0, v0) :: kvs') ++ [rbrace])) ++ rest =
            lbrace :: (encodeMembers ((k0, v0) :: kvs') ++ (rbrace :: rest)) := by simp
        rw [hshape]
        simp only [parseVal]
        rw [skipWs_cons_not_ws lbrace _ (by decide)]
        dsimp only
        rw [if_neg (by decide), if_neg (by decide), if_neg (by decide), if_neg (by decide),
          if_neg (by decide), if_pos rfl]
        have hm0 := encodeMembers_cons_shape k0 v0 kvs'
        have hskip : skipWs (encodeMembers ((k0, v0) :: kvs') ++ (rbrace :: rest)) =
            encodeMembers ((k0, v0) :: kvs') ++ (rbrace :: rest) := by
          rw [hm0, List.cons_append]
          exact skipWs_cons_not_ws '"' _ (by decide)
        rw [hskip]
        have hhead : (encodeMembers ((k0, v0) :: kvs') ++ (rbrace :: rest)).head? =
            some '"' := by
          rw [hm0]
          simp
        rw [if_neg (by rw [hhead]; simp; decide)]
        have hmem : ∀ k v, (k, v) ∈ (k0, v0) :: kvs' → ∀ fuel' rest',
            (encodeChars v).length < fuel' →
            (∀ c, rest'.head? = some c → c.isDigit = false) →
            parseVal fuel' (encodeChars v ++ rest') = some (v, rest') := by
          intro k v hv
          have hvlen : (encodeChars v).length ≤ (encodeMembers ((k0, v0) :: kvs')).length :=
            encodeChars_le_encodeMembers _ k v hv
          have hlen_em : (encodeMembers ((k0, v0) :: kvs')).length + 2 =
              (encodeChars (Json.obj ((k0, v0) :: kvs'))).length := by
            rw [he]
            simp
          have hvn : (encodeChars v).length < n := by omega
          exact ih (encodeChars v).length hvn v (le_refl _)
        have hlen_em : (encodeMembers ((k0, v0) :: kvs')).length + 2 =
            (encodeChars (Json.obj ((k0, v0) :: kvs'))).length := by
          rw [he]
          simp
        rw [parseMembers_encodeMembers ((k0, v0) :: kvs') hmem (by simp) f rest (by omega)]
        rfl

/-- `loads` of a canonical encoding returns the encoded value. -/
theorem loadsChars_encode (v : Json) : loadsChars (encodeChars v) = Except.ok v := by
  unfold loadsChars
  have hp := parseVal_encode (encodeChars v).length v (le_refl _)
    ((encodeChars v).length + 1) [] (by omega) (by intro c hc; simp at hc)
  rw [List.append_nil] at hp
  rw [hp]
  simp [skipWs]

/-- Dropping the last element of a cons list. -/
theorem getLast_cons_ne_nil (c : Char) (l : List Char) (h : l ≠ []) :
    (c :: l).getLast? = l.getLast? := by
  cases l with
  | nil => exact absurd rfl h
  | cons d ds => simp [List.getLast?]

/-- The last character of an encoded JSON value is never whitespace. -/
theorem encodeChars_last (v : Json) :
    ∃ c, (encodeChars v).getLast? = some c ∧ isWs c = false := by
  cases v with
  | null =>
    refine ⟨'l', ?_, by decide⟩
    rw [show encodeChars Json.null = ['n', 'u', 'l', 'l'] from by simp [encodeChars]; rfl]
    rfl
  | bool b =>
    cases b with
    | true =>
      refine ⟨'e', ?_, by decide⟩
      rw [show encodeChars (Json.bool true) = ['t', 'r', 'u', 'e'] from by
        simp [encodeChars]; rfl]
      rfl
    | false =>
      refine ⟨'e', ?_, by decide⟩
      rw [show encodeChars (Json.bool false) = ['f', 'a', 'l', 's', 'e'] from by
        simp [encodeChars]; rfl]
      rfl
  | num m =>
    by_cases hm : m < 0
    · obtain ⟨hne, hdig, _⟩ := natToChars_spec m.natAbs
      obtain ⟨cl, hcl⟩ := Option.isSome_iff_exists.1
        ((List.getLast?_isSome).2 hne)
      have hmem : cl ∈ natToChars m.natAbs := List.mem_of_mem_getLast? hcl
      refine ⟨cl, ?_, (digit_not_special cl (hdig cl hmem)).1⟩
      rw [show encodeChars (Json.num m) = '-' :: natToChars m.natAbs from by
        simp [encodeChars, intChars, hm]]
      rw [getLast_cons_ne_nil _ _ hne]
      exact hcl
    · obtain ⟨hne, hdig, _⟩ := natToChars_spec m.toNat
      obtain ⟨cl, hcl⟩ := Option.isSome_iff_exists.1
        ((List.getLast?_isSome).2 hne)
      have hmem : cl ∈ natToChars m.toNat := List.mem_of_mem_getLast? hcl
      refine ⟨cl, ?_, (digit_not_special cl (hdig cl hmem)).1⟩
      rw [show encodeChars (Json.num m) = natToChars m.toNat from by
        simp [encodeChars, intChars, hm]]
      exact hcl
  | str s =>
    refine ⟨'"', ?_, by decide⟩
    rw [show encodeChars (Json.str s) = ('"' :: escapeChars s.data) ++ ['"'] from by
      simp [encodeChars]]
    exact List.getLast?_concat _
  | arr xs =>
    refine ⟨']', ?_, by decide⟩
    rw [show encodeChars (Json.arr xs) = ('[' :: encodeList xs) ++ [']'] from by
      simp [encodeChars]]
    exact List.getLast?_concat _
  | obj kvs =>
    refine ⟨rbrace, ?_, by decide⟩
    rw [show encodeChars (Json.obj kvs) = (lbrace :: encodeMembers kvs) ++ [rbrace] from by
      simp [encodeChars]]
    exact List.getLast?_concat _

/-- `pyStrip` is the identity when neither end is whitespace. -/
theorem pyStrip_id (l : List Char) (h1 : ∀ c, l.head? = some c → isWs c = false)
    (h2 : ∀ c, l.getLast? = some c → isWs c = false) : pyStrip l = l := by
  cases l with
  | nil => rfl
  | cons c tl =>
    have hw := h1 c rfl
    unfold pyStrip
    rw [show (c :: tl).dropWhile isWs = c :: tl from by simp [List.dropWhile, hw]]
    have hne : (c :: tl) ≠ [] := by simp
    obtain ⟨cl, hcl⟩ := Option.isSome_iff_exists.1 ((List.getLast?_isSome).2 hne)
    have hwl := h2 cl hcl
    cases hrev : (c :: tl).reverse with
    | nil => simp at hrev
    | cons d ds =>
      have hd : d = cl := by
        have := List.head?_reverse (c :: tl)
        rw [hrev, hcl] at this
        simpa using this
      subst hd
      rw [show (d :: ds).dropWhile isWs = d :: ds from by simp [List.dropWhile, hwl],
        ← hrev, List.reverse_reverse]

/-- An encoded JSON value is untouched by the whitespace strip. -/
theorem pyStrip_encode (v : Json) : pyStrip (encodeChars v) = encodeChars v := by
  obtain ⟨c, tl, hshape, hok⟩ := encodeChars_head v
  obtain ⟨cl, hcl, hwl⟩ := encodeChars_last v
  refine pyStrip_id _ (fun c' hc' => ?_) (fun c' hc' => ?_)
  · rw [hshape] at hc'
    simp at hc'
    subst hc'
    rcases hok with rfl | rfl | rfl | rfl | rfl | rfl | rfl | hdg
    · decide
    · decide
    · decide
    · decide
    · decide
    · decide
    · decide
    · exact (digit_not_special _ hdg).1
  · rw [hcl] at hc'
    cases hc'
    exact hwl

/-- An encoded JSON value never starts with a code fence. -/
theorem startsTicks_encode (v : Json) : startsTicks (encodeChars v) = false := by
  obtain ⟨c, tl, hshape, hok⟩ := encodeChars_head v
  have hct : c ≠ tickChar := by
    rcases hok with rfl | rfl | rfl | rfl | rfl | rfl | rfl | hdg
    · decide
    · decide
    · decide
    · decide
    · decide
    · decide
    · decide
    · exact (digit_not_special c hdg).2.2.2.2.1
  rw [hshape]
  simp [startsTicks, List.take, hct]

/-- Claim C4: for every JSON value `v`, parsing the canonical JSON encoding
of `v` with `parse_json` returns exactly `v`. -/
theorem c4_parse_encode_roundtrip (v : Json) : parse_json (jsonDumps v) = Except.ok v := by
  show parseCore (fenceExtract (pyStrip (String.mk (encodeChars v)).data)) = Except.ok v
  rw [show (String.mk (encodeChars v)).data = encodeChars v from rfl, pyStrip_encode]
  unfold fenceExtract
  rw [startsTicks_encode]
  simp only [Bool.false_eq_true, if_false]
  unfold parseCore
  rw [loadsChars_encode]

/-! ## Claim C5 — code-fence extraction -/

/-- `findTicks` finds the first fence after a fence-free prefix. -/
theorem findTicks_append (xs ys : List Char) (h : tickChar ∉ xs) :
    findTicks (xs ++ (tickChar :: tickChar :: tickChar :: ys)) = some (xs, ys) := by
  induction xs with
  | nil => simp [findTicks]
  | cons c cs ih =>
    have hc : c ≠ tickChar := fun hh => h (by simp [hh])
    have hrest : tickChar ∉ cs := fun hm => h (by simp [hm])
    simp [findTicks, hc, ih hrest]

/-- Splitting the empty string. -/
theorem splitTicks_nil (fuel : Nat) : splitTicks fuel [] = [[]] := by
  cases fuel <;> simp [splitTicks, findTicks]

/-- `dropWhile` across an append. -/
theorem dropWhile_append_char (p : Char → Bool) (l1 l2 : List Char) :
    List.dropWhile p (l1 ++ l2) =
      if (List.dropWhile p l1).isEmpty then List.dropWhile p l2
      else List.dropWhile p l1 ++ l2 := by
  induction l1 with
  | nil => simp
  | cons c l1 ih =>
    by_cases hc : p c = true
    · simp [List.dropWhile, hc, ih]
    · simp [List.dropWhile, hc]

/-- Stripping is unaffected by one layer of newline padding. -/
theorem pyStrip_pad (body : List Char) :
    pyStrip ('\n' :: (body ++ ['\n'])) = pyStrip body := by
  unfold pyStrip
  rw [show List.dropWhile isWs ('\n' :: (body ++ ['\n'])) =
      List.dropWhile isWs (body ++ ['\n']) from by simp [List.dropWhile, isWs]]
  rw [dropWhile_append_char]
  by_cases he : (List.dropWhile isWs body).isEmpty
  · rw [if_pos he]
    have hb : List.dropWhile isWs body = [] := by simpa [List.isEmpty_iff] using he
    rw [show List.dropWhile isWs ['\n'] = ([] : List Char) from by
      simp [List.dropWhile, isWs], hb]
  · rw [if_neg he]
    rw [List.reverse_append]
    rw [show (['\n'] : List Char).reverse = ['\n'] from rfl, List.singleton_append]
    rw [show List.dropWhile isWs ('\n' :: (List.dropWhile isWs body).reverse) =
        List.dropWhile isWs ((List.dropWhile isWs body).reverse) from by
      simp [List.dropWhile, isWs]]

/-- Every character of a stripped string occurs in the original. -/
theorem pyStrip_subset (body : List Char) : ∀ x ∈ pyStrip body, x ∈ body := by
  intro x hx
  unfold pyStrip at hx
  rw [List.mem_reverse] at hx
  have h1 : x ∈ (List.dropWhile isWs body).reverse :=
    (List.dropWhile_sublist _).subset hx
  rw [List.mem_reverse] at h1
  exact (List.dropWhile_sublist _).subset h1

/-- A backtick-free string does not start with a fence after stripping. -/
theorem startsTicks_of_tick_free (body : List Char) (h : tickChar ∉ body) :
    startsTicks (pyStrip body) = false := by
  cases hs : pyStrip body with
  | nil => simp [startsTicks]
  | cons c tl =>
    have hc : c ≠ tickChar := by
      intro hcc
      subst hcc
      exact h (pyStrip_subset body tickChar (by rw [hs]; simp))
    simp [startsTicks, List.take, hc]

/-- One-step unfolding of `splitTicks`. -/
theorem splitTicks_succ (fuel : Nat) (cs : List Char) :
    splitTicks (fuel + 1) cs =
      match findTicks cs with
      | some (pre, post) => pre :: splitTicks fuel post
      | none => [cs] := rfl

/-- Claim C5: `parse_json` on input wrapped in a ```` ```json ```` fence
takes the content between the first and second fence, strips the `json`
tag, and parses that substring — so fenced wrapping of any backtick-free
text is transparent; in particular the fenced object example parses to the
expected JSON object. -/
theorem c5_fence_extraction :
    (∀ body : List Char, tickChar ∉ body →
      parseJsonChars (s2c "```json\n" ++ (body ++ s2c "\n```")) = parseJsonChars body) ∧
    parse_json "```json\n\x7b\"a\":1\x7d\n```" = Except.ok (Json.obj [("a", Json.num 1)]) := by
  refine ⟨?_, rfl⟩
  intro body hb
  have hxs1 : tickChar ∉ ('j' :: 's' :: 'o' :: 'n' :: '\n' :: (body ++ ['\n'])) := by
    intro hm
    simp only [List.mem_cons, List.mem_append, List.mem_singleton] at hm
    rcases hm with h | h | h | h | h | h | h
    · exact absurd h (by decide)
    · exact absurd h (by decide)
    · exact absurd h (by decide)
    · exact absurd h (by decide)
    · exact absurd h (by decide)
    · exact hb h
    · exact absurd h (by decide)
  have hinput : s2c "```json\n" ++ (body ++ s2c "\n```") =
      tickChar :: tickChar :: tickChar :: ('j' :: 's' :: 'o' :: 'n' :: '\n' ::
        (body ++ ('\n' :: tickChar :: tickChar :: tickChar :: []))) := by
    rw [show s2c "```json\n" =
        [tickChar, tickChar, tickChar, 'j', 's', 'o', 'n', '\n'] from by decide,
      show s2c "\n```" = ['\n', tickChar, tickChar, tickChar] from by decide]
    simp
  unfold parseJsonChars
  rw [hinput]
  have hstrip : pyStrip (tickChar :: tickChar :: tickChar :: ('j' :: 's' :: 'o' :: 'n' ::
      '\n' :: (body ++ ('\n' :: tickChar :: tickChar :: tickChar :: [])))) =
      tickChar :: tickChar :: tickChar :: ('j' :: 's' :: 'o' :: 'n' :: '\n' ::
        (body ++ ('\n' :: tickChar :: tickChar :: tickChar :: []))) := by
    refine pyStrip_id _ (fun c hc => ?_) (fun c hc => ?_)
    · simp at hc
      subst hc
      decide
    · rw [show tickChar :: tickChar :: tickChar :: ('j' :: 's' :: 'o' :: 'n' :: '\n' ::
          (body ++ ('\n' :: tickChar :: tickChar :: tickChar :: []))) =
          (tickChar :: tickChar :: tickChar :: ('j' :: 's' :: 'o' :: 'n' :: '\n' ::
            (body ++ ['\n', tickChar, tickChar]))) ++ [tickChar] from by simp,
        List.getLast?_concat] at hc
      cases hc
      decide
  rw [hstrip]
  unfold fenceExtract
  rw [if_pos (show startsTicks (tickChar :: tickChar :: tickChar :: ('j' :: 's' :: 'o' ::
    'n' :: '\n' :: (body ++ ('\n' :: tickChar :: tickChar :: tickChar :: [])))) = true from by
    simp [startsTicks, List.take])]
  have hsplit : splitTicks ((tickChar :: tickChar :: tickChar :: ('j' :: 's' :: 'o' :: 'n' ::
      '\n' :: (body ++ ('\n' :: tickChar :: tickChar :: tickChar :: [])))).length + 1)
      (tickChar :: tickChar :: tickChar :: ('j' :: 's' :: 'o' :: 'n' :: '\n' ::
        (body ++ ('\n' :: tickChar :: tickChar :: tickChar :: [])))) =
      [[], 'j' :: 's' :: 'o' :: 'n' :: '\n' :: (body ++ ['\n']), []] := by
    have hft : findTicks (tickChar :: tickChar :: tickChar :: ('j' :: 's' :: 'o' :: 'n' ::
        '\n' :: (body ++ ('\n' :: tickChar :: tickChar :: tickChar :: [])))) =
        some ([], 'j' :: 's' :: 'o' :: 'n' :: '\n' ::
          (body ++ ('\n' :: tickChar :: tickChar :: tickChar :: []))) :=
      findTicks_append [] _ (by simp)
    rw [splitTicks_succ, hft]
    obtain ⟨K, hK⟩ : ∃ K, (tickChar :: tickChar :: tickChar :: ('j' :: 's' :: 'o' :: 'n' ::
        '\n' :: (body ++ ('\n' :: tickChar :: tickChar :: tickChar :: [])))).length =
        K + 1 := ⟨body.length + 11, by
          simp only [List.length_cons, List.length_append, List.length_cons, List.length_nil]
          try omega⟩
    dsimp only
    rw [hK, splitTicks_succ]
    rw [show 'j' :: 's' :: 'o' :: 'n' :: '\n' ::
        (body ++ ('\n' :: tickChar :: tickChar :: tickChar :: [])) =
        ('j' :: 's' :: 'o' :: 'n' :: '\n' :: (body ++ ['\n'])) ++
          (tickChar :: tickChar :: tickChar :: []) from by simp,
      findTicks_append _ _ hxs1]
    dsimp only
    rw [splitTicks_nil]
  rw [hsplit]
  dsimp only
  rw [if_pos (show (decide (List.take 4 ('j' :: 's' :: 'o' :: 'n' :: '\n' ::
      (body ++ ['\n'])) = s2c "json") ||
      decide (List.take 4 ('j' :: 's' :: 'o' :: 'n' :: '\n' :: (body ++ ['\n'])) =
        s2c "JSON")) = true from by simp [List.take]; decide)]
  rw [show List.drop 4 ('j' :: 's' :: 'o' :: 'n' :: '\n' :: (body ++ ['\n'])) =
    '\n' :: (body ++ ['\n']) from by simp [List.drop]]
  rw [pyStrip_pad]
  rw [startsTicks_of_tick_free body hb]
  simp

/-- Witness for claim C5: fenced wrapping of the concrete object text is
transparent to `parse_json`. -/
theorem c5_witness :
    tickChar ∉ s2c "\x7b\"a\":1\x7d" ∧
    parseJsonChars (s2c "```json\n" ++ (s2c "\x7b\"a\":1\x7d" ++ s2c "\n```")) =
      parseJsonChars (s2c "\x7b\"a\":1\x7d") :=
  ⟨by decide, c5_fence_extraction.1 (s2c "\x7b\"a\":1\x7d") (by decide)⟩

/-! ## Claim C1 — batch extraction -/

/-- Decimal renderings of `k`-digit-bounded numbers have at most `k` digits. -/
theorem natToCharsAux_length : ∀ fuel n k, n < 10 ^ k → 1 ≤ k →
    (natToCharsAux fuel n).length ≤ k := by
  intro fuel
  induction fuel with
  | zero => intro n k _ _; simp [natToCharsAux]
  | succ f ih =>
    intro n k hn hk
    by_cases h10 : n < 10
    · simp [natToCharsAux, h10]
      omega
    · have hk2 : 2 ≤ k := by
        rcases Nat.lt_or_ge k 2 with h | h
        · exfalso
          have hk1 : k = 1 := by omega
          subst hk1
          simp at hn
          omega
        · exact h
      have hdiv : n / 10 < 10 ^ (k - 1) := by
        rw [Nat.div_lt_iff_lt_mul (by norm_num)]
        calc n < 10 ^ k := hn
        _ = 10 ^ (k - 1) * 10 := by
          rw [← Nat.pow_succ]
          congr 1
          omega
      have := ih (n / 10) (k - 1) hdiv (by omega)
      simp [natToCharsAux, h10]
      omega

/-- Width-padded renderings have exactly the pad width. -/
theorem padNum_length (w n k : Nat) (hn : n < 10 ^ k) (hk : 1 ≤ k) (hkw : k ≤ w) :
    (padNum w n).length = w := by
  have hlen : (natToChars n).length ≤ w :=
    le_trans (natToCharsAux_length (n + 1) n k hn hk) hkw
  simp [padNum]
  omega

/-- Two dated cache paths with representable dates agree on their key. -/
theorem datedPath_inj_key (d d' : Date) (k k' : String)
    (hd : ValidDate d) (hd' : ValidDate d')
    (h : datedPath d k = datedPath d' k') : k = k' := by
  obtain ⟨hm1, hm2, hday1, hday2, hy⟩ := hd
  obtain ⟨hm1', hm2', hday1', hday2', hy'⟩ := hd'
  unfold datedPath at h
  injection h with h
  have hy4 : (padNum 4 d.year).length = 4 :=
    padNum_length 4 d.year 4 (by omega) (by omega) (by omega)
  have hy4' : (padNum 4 d'.year).length = 4 :=
    padNum_length 4 d'.year 4 (by omega) (by omega) (by omega)
  have hmm : (padNum 2 d.month).length = 2 :=
    padNum_length 2 d.month 2 (by omega) (by omega) (by omega)
  have hmm' : (padNum 2 d'.month).length = 2 :=
    padNum_length 2 d'.month 2 (by omega) (by omega) (by omega)
  have hdd : (padNum 2 d.day).length = 2 :=
    padNum_length 2 d.day 2 (by omega) (by omega) (by omega)
  have hdd' : (padNum 2 d'.day).length = 2 :=
    padNum_length 2 d'.day 2 (by omega) (by omega) (by omega)
  have := (List.append_inj h (by simp [hy4, hy4', hmm, hmm', hdd, hdd'])).2
  have hkdata := (List.append_inj' this (by simp)).1
  calc k = String.mk k.data := (stringMkData k).symm
  _ = String.mk k'.data := by rw [hkdata]
  _ = k' := stringMkData k'

/-- Mapping `Json.str` over strings decodes back to the strings. -/
theorem strList_map_str (l : List String) :
    strList (l.map Json.str) = Except.ok l := by
  induction l with
  | nil => rfl
  | cons x xs ih => simp [strList, asStr, ih, bind, Except.bind]

/-- A serialized `TicketAnalysis` decodes back to itself. -/
theorem decodeTA_encodeTA (a : TicketAnalysis) : decodeTA (encodeTA a) = Except.ok a := by
  unfold decodeTA encodeTA
  rw [show (String.mk (encodeChars (taToJson a))).data = encodeChars (taToJson a) from rfl]
  rw [show loadsChars (encodeChars (taToJson a)) = Except.ok (taToJson a) from
    loadsChars_encode _]
  simp only [taToJson, bind, Except.bind]
  simp [reqStr, reqField, asStr, reqListStr, asStrList, getKey_cons, strList_map_str,
    getKey, List.find?, bind, Except.bind]

/-- Digit characters decode to values at most 9. -/
theorem digitVal_le_of_isDigit (c : Char) (h : c.isDigit = true) : digitVal c ≤ 9 := by
  simp only [Char.isDigit, Bool.and_eq_true, decide_eq_true_eq] at h
  obtain ⟨h1, h2⟩ := h
  have h2n : c.val.toNat ≤ 57 := h2
  simp only [digitVal, Char.toNat]
  omega

/-- No month has more than 31 days. -/
theorem daysInMonth_le (y m : Nat) : daysInMonth y m ≤ 31 := by
  unfold daysInMonth
  split
  · split <;> omega
  · split <;> omega

/-- A date accepted by the `YYYY-MM-DD` validator is representable. -/
theorem parseDateChars_valid (cs : List Char) (d : Date) (rest : List Char)
    (h : parseDateChars cs = some (d, rest)) : ValidDate d := by
  unfold parseDateChars at h
  split at h
  case _ y1 y2 y3 y4 m1 m2 d1 d2 r =>
    split at h
    case isTrue hdig =>
      simp only [ge_iff_le] at h
      split at h
      case isTrue hrange =>
        simp only [Option.some.injEq, Prod.mk.injEq] at h
        obtain ⟨hd, -⟩ := h
        subst hd
        simp only [Bool.and_eq_true, decide_eq_true_eq] at hdig hrange
        obtain ⟨⟨⟨⟨⟨⟨⟨h1, h2⟩, h3⟩, h4⟩, h5⟩, h6⟩, h7⟩, h8⟩ := hdig
        obtain ⟨⟨⟨hm1, hm2⟩, hd1⟩, hd2⟩ := hrange
        have b1 := digitVal_le_of_isDigit y1 h1
        have b2 := digitVal_le_of_isDigit y2 h2
        have b3 := digitVal_le_of_isDigit y3 h3
        have b4 := digitVal_le_of_isDigit y4 h4
        have hday := le_trans hd2 (daysInMonth_le (digitsVal [y1, y2, y3, y4])
          (digitsVal [m1, m2]))
        refine ⟨hm1, hm2, hd1, hday, ?_⟩
        simp only [digitsVal, List.foldl]
        omega
      case isFalse => exact absurd h (by simp)
    case isFalse => exact absurd h (by simp)
  case _ => exact absurd h (by simp)

/-- A date produced by `fromisoformat` is representable. -/
theorem fromisoformatDate_valid (s : String) (d : Date)
    (h : fromisoformatDate s = some d) : ValidDate d := by
  unfold fromisoformatDate at h
  split at h
  case _ d0 heq =>
    cases h
    exact parseDateChars_valid _ _ _ heq
  case _ d0 c r heq =>
    split at h
    · cases h
      exact parseDateChars_valid _ _ _ heq
    · exact absurd h (by simp)
  case _ => exact absurd h (by simp)

/-- The per-ticket extraction date is representable whenever today is. -/
theorem ticketDate_valid (today : Date) (t : Ticket) (h : ValidDate today) :
    ValidDate (ticketDate today t) := by
  unfold ticketDate
  split
  case _ d heq => exact fromisoformatDate_valid _ _ heq
  case _ => exact h

/-- `TicketAnalysis(ticket_id=tid, **data)` carries the given ticket id. -/
theorem mkTicketAnalysis_tid (tid : String) (data : Json) (a : TicketAnalysis)
    (h : mkTicketAnalysis tid data = Except.ok a) : a.ticket_id = tid := by
  unfold mkTicketAnalysis at h
  split at h
  case _ kvs =>
    split at h
    · exact absurd h (by simp)
    · simp only [bind, Except.bind] at h
      repeat' split at h
      all_goals simp_all
      cases h
      rfl
  case _ => exact absurd h (by simp)

/-- Writing an analysis under its own ticket id at a representable date
preserves cache coherence. -/
theorem coherent_save (fs : Fs) (tid : String) (d : Date) (a : TicketAnalysis)
    (hco : Coherent fs) (hd : ValidDate d) (hid : a.ticket_id = tid) :
    Coherent (DateOrganizedCache.save_dated fs tid d (encodeTA a)) := by
  intro p text a2 hp hdec d2 k2 hvd2 hpath
  unfold DateOrganizedCache.save_dated at hp
  by_cases hpp : p = datedPath d tid
  · rw [if_pos hpp] at hp
    cases hp
    rw [decodeTA_encodeTA a] at hdec
    cases hdec
    have hkeys : tid = k2 := by
      apply datedPath_inj_key d d2 tid k2 hd hvd2
      rw [← hpp, hpath]
    rw [hid, hkeys]
  · rw [if_neg hpp] at hp
    exact hco p text a2 hp hdec d2 k2 hvd2 hpath

/-- The call path of `extract_ticket`: a successful result carries the
requested ticket id and persists itself under that id. -/
theorem extractTicketCall_ok (apiCall : String → Except String String)
    (tid content : String) (d : Date) (fs : Fs) (a : TicketAnalysis) (fs2 : Fs)
    (h : (extractTicketCall apiCall tid content d fs).result = Except.ok (a, fs2)) :
    a.ticket_id = tid ∧ fs2 = DateOrganizedCache.save_dated fs tid d (encodeTA a) := by
  unfold extractTicketCall at h
  simp only [ge_iff_le] at h
  split at h
  · exact absurd h (by simp)
  case _ content2 heq =>
    split at h
    · exact absurd h (by simp)
    case _ data heq2 =>
      split at h
      · exact absurd h (by simp)
      case _ analysis heq3 =>
        simp only [Except.ok.injEq, Prod.mk.injEq] at h
        obtain ⟨ha, hfs⟩ := h
        subst ha
        exact ⟨mkTicketAnalysis_tid tid data analysis heq3, hfs.symm⟩

/-- A successful `extract_ticket` on a coherent cache returns an analysis
with the requested ticket id and leaves the cache coherent. -/
theorem extract_ticket_ok (apiCall : String → Except String String)
    (tid content : String) (d : Date) (fs : Fs) (a : TicketAnalysis) (fs2 : Fs)
    (hco : Coherent fs) (hd : ValidDate d)
    (h : (extract_ticket apiCall tid content d fs).result = Except.ok (a, fs2)) :
    a.ticket_id = tid ∧ Coherent fs2 := by
  unfold extract_ticket at h
  have hcall : (extractTicketCall apiCall tid content d fs).result = Except.ok (a, fs2) →
      a.ticket_id = tid ∧ Coherent fs2 := by
    intro hc
    obtain ⟨hid, hfs⟩ := extractTicketCall_ok apiCall tid content d fs a fs2 hc
    subst hfs
    exact ⟨hid, coherent_save fs tid d a hco hd hid⟩
  split at h
  · split at h
    · exact absurd h (by simp)
    case _ cached heq =>
      simp only [Except.ok.injEq, Prod.mk.injEq] at h
      obtain ⟨ha, hfs⟩ := h
      subst ha
      subst hfs
      unfold DateOrganizedCache.get_dated at heq
      refine ⟨?_, hco⟩
      revert heq
      cases hfs2 : fs (datedPath d tid) with
      | none =>
        intro heq
        dsimp only at heq
        simp at heq
      | some text =>
        intro heq
        dsimp only at heq
        cases hdec : decodeTA text with
        | error e =>
          rw [hdec] at heq
          simp [Except.map] at heq
        | ok a0 =>
          rw [hdec] at heq
          simp only [Except.map, Except.ok.injEq, Option.some.injEq] at heq
          subst heq
          exact hco (datedPath d tid) text a0 hfs2 hdec d tid hd rfl
    · exact hcall h
  · exact hcall h

/-- The first ticket of a batch sees the initial cache state. -/
theorem batchFsAt_zero (apiCall : String → Except String String) (today : Date)
    (tickets : List Ticket) (fs : Fs) :
    batchFsAt apiCall today tickets fs 0 = fs := rfl

/-- The cache state seen by the later tickets threads through the head
ticket's outcome. -/
theorem batchFsAt_succ_cons (apiCall : String → Except String String) (today : Date)
    (t : Ticket) (ts : List Ticket) (fs : Fs) (i : Nat) :
    batchFsAt apiCall today (t :: ts) fs (i + 1) =
      (match (extract_ticket apiCall t.id t.content (ticketDate today t) fs).result with
        | Except.ok (_, fs2) => batchFsAt apiCall today ts fs2 i
        | Except.error _ => batchFsAt apiCall today ts fs i) := by
  unfold batchFsAt
  rw [List.take_succ_cons]
  show (extract_batch apiCall today (t :: List.take i ts) fs).2 = _
  rw [extract_batch]
  split <;> rfl

/-- Batch extraction, elementwise: the batch preserves length, the i-th
output is the i-th ticket's own extraction outcome at its cache state
(placeholder on failure), and every output carries its ticket's id. -/
theorem extract_batch_elems (apiCall : String → Except String String) (today : Date)
    (htoday : ValidDate today) :
    ∀ (tickets : List Ticket) (fs : Fs), Coherent fs →
      (extract_batch apiCall today tickets fs).1.length = tickets.length ∧
      (∀ (i : Nat) (t : Ticket), tickets[i]? = some t →
        (extract_batch apiCall today tickets fs).1[i]? =
          some (match (extract_ticket apiCall t.id t.content (ticketDate today t)
                (batchFsAt apiCall today tickets fs i)).result with
            | Except.ok (a, _) => a
            | Except.error e => placeholderAnalysis t.id e)) ∧
      (∀ (i : Nat) (t : Ticket) (a : TicketAnalysis), tickets[i]? = some t →
        (extract_batch apiCall today tickets fs).1[i]? = some a → a.ticket_id = t.id) := by
  intro tickets
  induction tickets with
  | nil =>
    intro fs _
    refine ⟨rfl, ?_, ?_⟩
    · intro i t hit; simp at hit
    · intro i t a hit; simp at hit
  | cons t ts ih =>
    intro fs hco
    cases hres : (extract_ticket apiCall t.id t.content (ticketDate today t) fs).result with
    | ok p =>
      obtain ⟨a0, fs2⟩ := p
      obtain ⟨hid, hco2⟩ := extract_ticket_ok apiCall t.id t.content (ticketDate today t)
        fs a0 fs2 hco (ticketDate_valid today t htoday) hres
      obtain ⟨ihlen, ihelem, ihid⟩ := ih fs2 hco2
      have hout : (extract_batch apiCall today (t :: ts) fs).1 =
          a0 :: (extract_batch apiCall today ts fs2).1 := by
        rw [extract_batch, hres]
      refine ⟨?_, ?_, ?_⟩
      · rw [hout]; simp [ihlen]
      · intro i t2 hit
        cases i with
        | zero =>
          simp only [List.getElem?_cons_zero, Option.some.injEq] at hit
          subst hit
          rw [hout]
          simp only [List.getElem?_cons_zero, Option.some.injEq]
          rw [batchFsAt_zero, hres]
        | succ j =>
          simp only [List.getElem?_cons_succ] at hit
          rw [hout]
          simp only [List.getElem?_cons_succ]
          rw [batchFsAt_succ_cons, hres]
          exact ihelem j t2 hit
      · intro i t2 a hit hout2
        cases i with
        | zero =>
          simp only [List.getElem?_cons_zero, Option.some.injEq] at hit
          subst hit
          rw [hout] at hout2
          simp only [List.getElem?_cons_zero, Option.some.injEq] at hout2
          subst hout2
          exact hid
        | succ j =>
          simp only [List.getElem?_cons_succ] at hit
          rw [hout] at hout2
          simp only [List.getElem?_cons_succ] at hout2
          exact ihid j t2 a hit hout2
    | error e =>
      obtain ⟨ihlen, ihelem, ihid⟩ := ih fs hco
      have hout : (extract_batch apiCall today (t :: ts) fs).1 =
          placeholderAnalysis t.id e :: (extract_batch apiCall today ts fs).1 := by
        rw [extract_batch, hres]
      refine ⟨?_, ?_, ?_⟩
      · rw [hout]; simp [ihlen]
      · intro i t2 hit
        cases i with
        | zero =>
          simp only [List.getElem?_cons_zero, Option.some.injEq] at hit
          subst hit
          rw [hout]
          simp only [List.getElem?_cons_zero, Option.some.injEq]
          rw [batchFsAt_zero, hres]
        | succ j =>
          simp only [List.getElem?_cons_succ] at hit
          rw [hout]
          simp only [List.getElem?_cons_succ]
          rw [batchFsAt_succ_cons, hres]
          exact ihelem j t2 hit
      · intro i t2 a hit hout2
        cases i with
        | zero =>
          simp only [List.getElem?_cons_zero, Option.some.injEq] at hit
          subst hit
          rw [hout] at hout2
          simp only [List.getElem?_cons_zero, Option.some.injEq] at hout2
          subst hout2
          rfl
        | succ j =>
          simp only [List.getElem?_cons_succ] at hit
          rw [hout] at hout2
          simp only [List.getElem?_cons_succ] at hout2
          exact ihid j t2 a hit hout2

/-- **Claim C1.** For every list of input tickets, `extract_batch` returns one
analysis per ticket: the output has the same length as the input, the i-th
output position holds exactly the i-th ticket's own extraction outcome at its
point in the batch — its analysis on success, and on any raised exception the
placeholder analysis (whose category is `"error"`) carrying that ticket's id
and the exception's message, so one ticket's failure neither aborts the batch
nor perturbs any other position — and, over a coherent cache and a
representable current date, every output's `ticket_id` equals the id of the
ticket at its position. -/
theorem c1_extract_batch_spec (apiCall : String → Except String String)
    (today : Date) (tickets : List Ticket) (fs : Fs)
    (hco : Coherent fs) (htoday : ValidDate today) :
    (extract_batch apiCall today tickets fs).1.length = tickets.length ∧
    (∀ (i : Nat) (t : Ticket), tickets[i]? = some t →
      (extract_batch apiCall today tickets fs).1[i]? =
        some (match (extract_ticket apiCall t.id t.content (ticketDate today t)
              (batchFsAt apiCall today tickets fs i)).result with
          | Except.ok (a, _) => a
          | Except.error e => placeholderAnalysis t.id e)) ∧
    (∀ (i : Nat) (t : Ticket) (a : TicketAnalysis), tickets[i]? = some t →
      (extract_batch apiCall today tickets fs).1[i]? = some a → a.ticket_id = t.id) ∧
    (∀ tid e, (placeholderAnalysis tid e).category = "error") := by
  obtain ⟨h1, h2, h3⟩ := extract_batch_elems apiCall today htoday tickets fs hco
  exact ⟨h1, h2, h3, fun _ _ => rfl⟩

/-- Witness for claim C1: a two-ticket batch against an always-failing
service, starting from the empty (hence coherent) cache on a representable
date. -/
theorem c1_witness :
    Coherent (fun _ => none) ∧ ValidDate ⟨2024, 1, 5⟩ ∧
    ((extract_batch (fun _ => Except.error "service down") ⟨2024, 1, 5⟩
        [⟨"T1", "login broken", "2024-01-05"⟩, ⟨"T3", "billing", "bad-date"⟩]
        (fun _ => none)).1.length =
      ([⟨"T1", "login broken", "2024-01-05"⟩, ⟨"T3", "billing", "bad-date"⟩] :
        List Ticket).length ∧
    (∀ (i : Nat) (t : Ticket),
      ([⟨"T1", "login broken", "2024-01-05"⟩, ⟨"T3", "billing", "bad-date"⟩] :
        List Ticket)[i]? = some t →
      (extract_batch (fun _ => Except.error "service down") ⟨2024, 1, 5⟩
        [⟨"T1", "login broken", "2024-01-05"⟩, ⟨"T3", "billing", "bad-date"⟩]
        (fun _ => none)).1[i]? =
        some (match (extract_ticket (fun _ => Except.error "service down") t.id t.content
              (ticketDate ⟨2024, 1, 5⟩ t)
              (batchFsAt (fun _ => Except.error "service down") ⟨2024, 1, 5⟩
                [⟨"T1", "login broken", "2024-01-05"⟩, ⟨"T3", "billing", "bad-date"⟩]
                (fun _ => none) i)).result with
          | Except.ok (a, _) => a
          | Except.error e => placeholderAnalysis t.id e)) ∧
    (∀ (i : Nat) (t : Ticket) (a : TicketAnalysis),
      ([⟨"T1", "login broken", "2024-01-05"⟩, ⟨"T3", "billing", "bad-date"⟩] :
        List Ticket)[i]? = some t →
      (extract_batch (fun _ => Except.error "service down") ⟨2024, 1, 5⟩
        [⟨"T1", "login broken", "2024-01-05"⟩, ⟨"T3", "billing", "bad-date"⟩]
        (fun _ => none)).1[i]? = some a → a.ticket_id = t.id) ∧
    (∀ tid e, (placeholderAnalysis tid e).category = "error")) :=
  ⟨fun _ _ _ hp => Option.noConfusion hp, ⟨by decide, by decide, by decide, by decide, by decide⟩,
   c1_extract_batch_spec (fun _ => Except.error "service down") ⟨2024, 1, 5⟩
     [⟨"T1", "login broken", "2024-01-05"⟩, ⟨"T3", "billing", "bad-date"⟩]
     (fun _ => none) (fun _ _ _ hp => Option.noConfusion hp)
     ⟨by decide, by decide, by decide, by decide, by decide⟩⟩
